import Mathlib

/-! labgob: the diagnostic shim in front of encoding/gob

A shallow embedding of `src/src/labgob/labgob.go`.

* The package variables `checked` and `errorCount` and the text written by
  `fmt.Printf` form an explicit `State` that every function threads.
* `reflect.Type` values are indices (`TypeId`) into the table of type
  descriptors of the running program; the nil `reflect.Type` is `none`.
* `checkType` recurses through the type graph, which may be cyclic, so it is
  defined with a recursion budget; `checkType_budget` shows that a budget of
  one more than the number of descriptors always suffices.
* `mu.Lock` / `mu.Unlock` have no effect on the result of a sequential run and
  are left out of `checkType` and `checkDefaultinner`; `checkTypeEv` and
  `checkDefaultinnerEv` are the same functions with the lock operations and
  the accesses to the shared variables recorded as events.
* `reflect.Value.Interface` panics on a value obtained through an unexported
  struct field; the auditor carries the read-only bits of the `reflect.Value`
  flag for that.
-/

set_option autoImplicit false

namespace Labgob

/-! ## Data model -/

/-- The kinds of `reflect.Kind`. -/
inductive Kind where
  | Invalid | Bool
  | Int | Int8 | Int16 | Int32 | Int64
  | Uint | Uint8 | Uint16 | Uint32 | Uint64 | Uintptr
  | Float32 | Float64 | Complex64 | Complex128
  | Array | Chan | Func | Interface | Map | Ptr | Slice
  | String | Struct | UnsafePointer
  deriving DecidableEq, Repr

/-- A non-nil `reflect.Type`: the index of a descriptor in the type table. -/
abbrev TypeId := Nat

/-- The part of `reflect.StructField` that the package reads. -/
structure StructField where
  /-- Field name, `f.Name`. -/
  Name : String
  /-- Field type, `f.Type` (`Type` is reserved in Lean). -/
  Typ : TypeId
  deriving DecidableEq, Repr

/-- A type descriptor, through the accessors the package calls on it:
`Kind()`, `Name()`, `NumField()`/`Field(i)` (meaningful for structs),
`Elem()` (slice, array, pointer, map) and `Key()` (map). -/
structure RType where
  /-- Result of `t.Kind()`. -/
  Kind : Kind
  /-- Result of `t.Name()`. -/
  Name : String
  /-- The fields `t.Field(0)`, ..., `t.Field(t.NumField()-1)`. -/
  Fields : List StructField
  /-- Result of `t.Elem()`. -/
  Elem : TypeId
  /-- Result of `t.Key()`. -/
  Key : TypeId
  deriving DecidableEq, Repr

/-- Descriptor standing for an index outside the type table: it has no
fields and is of a kind that `checkType` does not descend into. -/
def RType.absent : RType :=
  { Kind := Kind.Invalid, Name := "", Fields := [], Elem := 0, Key := 0 }

/-- What the package takes from its host: the type descriptors of the
program (a finite table, possibly cyclic through the indices) and the
predicate `unicode.IsUpper` of the standard library, whose tables are not
part of this repository. -/
structure Runtime where
  /-- The type descriptors, indexed by `TypeId`. -/
  types : List RType
  /-- The library predicate `unicode.IsUpper`. -/
  IsUpper : Char → Bool

/-- The descriptor of a non-nil type. -/
def Runtime.typ (g : Runtime) (t : TypeId) : RType :=
  g.types.getD t RType.absent

/-- A line written to standard output by `fmt.Printf`. -/
inductive Diag where
  /-- The line
  "labgob error: lower-case field %v of %v in RPC or persist/snapshot will break your Raft"
  with the field name and the type name. -/
  | lowerCase (field : String) (typeName : String)
  /-- The line
  "labgob warning: Decoding into a non-default variable/field %v may not work". -/
  | nonDefault (what : String)
  deriving DecidableEq, Repr

/-- The process-wide diagnostic state.
`checked` is the key set of the map `checked` (a nil map reads as the empty
map and `checkType` allocates it before its first write, so nil and empty are
one state); the newest key is at the head. `errorCount` is the package
counter; it is a 64-bit `int` in the source and is modelled unbounded, since
no run performs 2^63 increments. `out` is the text printed so far. -/
structure State where
  /-- Keys of the memo of checked types. -/
  checked : List TypeId
  /-- The warning counter. -/
  errorCount : Nat
  /-- The lines printed so far, oldest first. -/
  out : List Diag
  deriving DecidableEq, Repr

/-- The state of a fresh process. -/
def State.init : State := { checked := [], errorCount := 0, out := [] }

/-- How a call ends. -/
inductive Outcome (α : Type) where
  /-- The call returned. -/
  | done (a : α)
  /-- The call panicked (a method was invoked on a nil value). -/
  | panic
  /-- The recursion budget of the model ran out. -/
  | outOfFuel
  deriving DecidableEq, Repr

/-- Sequencing of calls: a panic or an exhausted budget stops the run. -/
def Outcome.bind {α β : Type} (x : Outcome α) (f : α → Outcome β) : Outcome β :=
  match x with
  | .done a => f a
  | .panic => .panic
  | .outOfFuel => .outOfFuel

/-- The function `utf8.DecodeRuneInString`, first result: the first rune of
the string, or `utf8.RuneError` (U+FFFD) for the empty string. -/
def DecodeRuneInString (s : String) : Char :=
  match s.data with
  | [] => Char.ofNat 0xFFFD
  | c :: _ => c

/-! ## The Type-Visibility Checker -/

/-- Lines 86-94: the body of the field loop before the recursive call. -/
def flagField (g : Runtime) (t : TypeId) (f : StructField) (s : State) : State :=
  if g.IsUpper (DecodeRuneInString f.Name) == false then
    { s with out := s.out ++ [Diag.lowerCase f.Name (g.typ t).Name],
             errorCount := s.errorCount + 1 }
  else s

/-- The loop `for i := 0; i < t.NumField(); i++` of `checkType`, with the
recursive call passed as `rec`. -/
def fieldLoop (g : Runtime) (t : TypeId) (rec : TypeId → State → Outcome State) :
    List StructField → State → Outcome State
  | [], s => .done s
  | f :: rest, s => (rec f.Typ (flagField g t f s)).bind (fieldLoop g t rec rest)

/-- The function `checkType` (lines 70-109). The first argument after the
runtime is the recursion budget. -/
def checkType (g : Runtime) : Nat → Option TypeId → State → Outcome State
  | _, none, _ => .panic
  | 0, some _, _ => .outOfFuel
  | fuel + 1, some t, s =>
    let k := (g.typ t).Kind
    if t ∈ s.checked then .done s
    else
      let s1 : State := { s with checked := t :: s.checked }
      match k with
      | .Struct =>
        fieldLoop g t (fun u s2 => checkType g fuel (some u) s2) (g.typ t).Fields s1
      | .Slice | .Array | .Ptr =>
        checkType g fuel (some (g.typ t).Elem) s1
      | .Map =>
        (checkType g fuel (some (g.typ t).Elem) s1).bind
          (checkType g fuel (some (g.typ t).Key))
      | _ => .done s1

/-- A budget that is always enough: one more than the number of descriptors. -/
def Runtime.budget (g : Runtime) : Nat := g.types.length + 1

/-! ## Values -/

/-- The signed and unsigned integer kinds, `uintptr` included. -/
inductive IntKind where
  | Int | Int8 | Int16 | Int32 | Int64
  | Uint | Uint8 | Uint16 | Uint32 | Uint64 | Uintptr
  deriving DecidableEq, Repr

/-- The floating-point kinds. -/
inductive FloatKind where
  | Float32 | Float64
  deriving DecidableEq, Repr

/-- The kinds for which `checkDefaultinner` has no case. -/
inductive OtherKind where
  | Invalid | Complex64 | Complex128 | Array | Chan | Func | Interface | Map
  | Slice | UnsafePointer
  deriving DecidableEq, Repr

/-- The bits of an IEEE 754 number. It compares equal to zero exactly when
exponent and fraction are both zero (plus or minus zero); a NaN is not equal
to zero. -/
structure FloatBits where
  /-- The sign bit. -/
  sign : Bool
  /-- The biased exponent. -/
  exponent : Nat
  /-- The fraction bits. -/
  fraction : Nat
  deriving DecidableEq, Repr

/-- What the type descriptor says of field `i` of a struct, as far as the
auditor and `reflect.Value.Field` read it. -/
structure FieldDesc where
  /-- Field name, `t.Field(i).Name`; for an embedded field the type name. -/
  Name : String
  /-- The field is embedded, `t.Field(i).Anonymous`. -/
  Anonymous : Bool
  deriving DecidableEq, Repr

/-- The data of a `reflect.Value`, unfolded into a tree. Every node carries
what the package reads from `value.Type()`: the kind (given by the
constructor), the type name `t.Name()`, and for a struct the descriptors of
the fields next to the field values `value.Field(i)`. A nil pointer has no
pointee. Pointer cycles are unfolded; `checkDefaultinner` descends at most
three levels, so a finite unfolding represents every value. -/
inductive Value where
  | VStruct (typeName : String) (fields : List (FieldDesc × Value))
  | VPtr (typeName : String) (elem : Option Value)
  | VBool (typeName : String) (b : Bool)
  | VInt (k : IntKind) (typeName : String) (i : Int)
  | VFloat (k : FloatKind) (typeName : String) (f : FloatBits)
  | VString (typeName : String) (str : String)
  | VOther (k : OtherKind) (typeName : String) (contents : List Value)

/-- Result of `value.Type().Kind()`. -/
def Value.Kind : Value → Kind
  | .VStruct _ _ => Kind.Struct
  | .VPtr _ _ => Kind.Ptr
  | .VBool _ _ => Kind.Bool
  | .VInt k _ _ =>
    match k with
    | .Int => Kind.Int | .Int8 => Kind.Int8 | .Int16 => Kind.Int16
    | .Int32 => Kind.Int32 | .Int64 => Kind.Int64
    | .Uint => Kind.Uint | .Uint8 => Kind.Uint8 | .Uint16 => Kind.Uint16
    | .Uint32 => Kind.Uint32 | .Uint64 => Kind.Uint64 | .Uintptr => Kind.Uintptr
  | .VFloat k _ _ =>
    match k with
    | .Float32 => Kind.Float32 | .Float64 => Kind.Float64
  | .VString _ _ => Kind.String
  | .VOther k _ _ =>
    match k with
    | .Invalid => Kind.Invalid | .Complex64 => Kind.Complex64
    | .Complex128 => Kind.Complex128 | .Array => Kind.Array | .Chan => Kind.Chan
    | .Func => Kind.Func | .Interface => Kind.Interface | .Map => Kind.Map
    | .Slice => Kind.Slice | .UnsafePointer => Kind.UnsafePointer

/-- Result of `value.Type().Name()`. -/
def Value.typeName : Value → String
  | .VStruct n _ => n
  | .VPtr n _ => n
  | .VBool n _ => n
  | .VInt _ n _ => n
  | .VFloat _ n _ => n
  | .VString n _ => n
  | .VOther _ n _ => n

/-- For a value of scalar kind, the comparison of line 149,
`reflect.DeepEqual(reflect.Zero(t).Interface(), value.Interface()) == false`,
once `value.Interface()` has returned: the value differs from the zero value
of its type. It is `false` for the kinds on which the source does not
evaluate the test. -/
def Value.nonDefault : Value → Bool
  | .VBool _ b => b != false
  | .VInt _ _ i => i != 0
  | .VFloat _ _ f => !(f.exponent == 0 && f.fraction == 0)
  | .VString _ str => str != ""
  | _ => false

/-- A non-nil `interface{}`: its dynamic type and the value it holds. -/
structure Iface where
  /-- The dynamic type, `reflect.TypeOf(v)`. -/
  typ : TypeId
  /-- The value, `reflect.ValueOf(v)`. -/
  val : Value

/-- An `interface{}` argument; `none` is the nil interface. -/
abbrev Interface := Option Iface

/-- The function `reflect.TypeOf`: nil for the nil interface. -/
def TypeOf (v : Interface) : Option TypeId := v.map Iface.typ

/-- A `reflect.Value` handle as `EncodeValue` receives it. -/
inductive RValue where
  /-- The zero `reflect.Value`, which is what `reflect.ValueOf(nil)` gives. -/
  | invalid
  /-- The handle `reflect.ValueOf(v)` of a non-nil `v`. -/
  | of (iv : Iface)
  /-- A handle of kind Interface (a field or element of interface type)
  holding the interface `inner`. -/
  | ofInterface (inner : Interface)

/-- The function `reflect.ValueOf`. -/
def ValueOf (v : Interface) : RValue :=
  match v with
  | none => .invalid
  | some iv => .of iv

/-- The method `reflect.Value.Interface`: it panics on the zero Value and
returns the stored interface for a handle of kind Interface. -/
def RValue.Interface : RValue → Outcome Interface
  | .invalid => .panic
  | .of iv => .done (some iv)
  | .ofInterface inner => .done inner

/-! ## The Default-Value Auditor -/

/-- Lines 151-168: the report of one non-default scalar. `name` is the
accumulated path and `typeName` the result of `t.Name()`. -/
def report (name typeName : String) (s : State) : State :=
  let s1 : State :=
    if s.errorCount < 1 then
      let what := if name == "" then typeName else name
      { s with out := s.out ++ [Diag.nonDefault what] }
    else s
  { s1 with errorCount := s1.errorCount + 1 }

/-- The read-only bits of the flag of a `reflect.Value`: `flagStickyRO`
(obtained through an unexported field that is not embedded) and `flagEmbedRO`
(obtained through an unexported embedded field). -/
structure RO where
  /-- The bit `flagStickyRO`. -/
  sticky : Bool
  /-- The bit `flagEmbedRO`. -/
  embed : Bool
  deriving DecidableEq, Repr

/-- The bits of a value that `reflect.ValueOf` returns: none is set. -/
def RO.clear : RO := { sticky := false, embed := false }

/-- The test `v.flag&flagRO != 0` of `reflect.Value.Interface`: when it holds
the method panics ("cannot return value obtained from unexported field or
method"). -/
def RO.isSet (ro : RO) : Bool := ro.sticky || ro.embed

/-- A field name is exported when its first rune is an upper-case letter;
this is the bit `reflect` reads with `field.Name.IsExported()`. -/
def exportedName (g : Runtime) (name : String) : Bool :=
  g.IsUpper (DecodeRuneInString name)

/-- The read-only bits of `value.Field(i)`: the sticky bit of the struct is
inherited and its embed bit is cleared; an unexported field sets the embed
bit when it is embedded and the sticky bit otherwise. -/
def RO.ofField (g : Runtime) (ro : RO) (f : FieldDesc) : RO :=
  if exportedName g f.Name then { sticky := ro.sticky, embed := false }
  else if f.Anonymous then { sticky := ro.sticky, embed := true }
  else { sticky := true, embed := false }

/-- The loop `for i := 0; i < t.NumField(); i++` of `checkDefaultinner`
(lines 127-134) on a struct whose read-only bits are `ro`, with the recursive
call passed as `rec`. The assignment of line 131 is to the parameter `name`
itself, so the path carries over to the next iteration. -/
def structLoop (g : Runtime) (ro : RO) (rec : Value → RO → String → State → Outcome State) :
    List (FieldDesc × Value) → String → State → Outcome State
  | [], _, s => .done s
  | (f, vv) :: rest, name, s =>
    let name1 := if f.Name != "" then name ++ "." ++ f.Name else name
    (rec vv (ro.ofField g f) name1 s).bind (structLoop g ro rec rest name1)

/-- The body of `checkDefaultinner`, by recursion on the number of levels
left before the cutoff `depth > 3`. The `reflect.Value` argument is the pair
of `value` and its read-only bits `ro`. In the scalar case line 149 calls
`value.Interface()`, which panics when a read-only bit is set; `value.Elem()`
keeps the bits. -/
def checkDefaultinnerAux (g : Runtime) :
    Nat → Value → RO → Int → String → State → Outcome State
  | 0, _, _, _, _, s => .done s
  | levels + 1, value, ro, depth, name, s =>
    if depth > 3 then .done s
    else
      match value with
      | .VStruct _ fields =>
        structLoop g ro
          (fun vv r nm s1 => checkDefaultinnerAux g levels vv r (depth + 1) nm s1)
          fields name s
      | .VPtr _ elem =>
        match elem with
        | none => .done s
        | some pointee => checkDefaultinnerAux g levels pointee ro (depth + 1) name s
      | .VOther _ _ _ => .done s
      | scalar =>
        if ro.isSet then .panic
        else if scalar.nonDefault then .done (report name scalar.typeName s)
        else .done s

/-- The function `checkDefaultinner` (lines 118-172). With `4 - depth` levels
the recursion reaches the cutoff `depth > 3` exactly when the levels are used
up; `checkDefaultinner_eq` states the body without the level count. -/
def checkDefaultinner (g : Runtime) (value : Value) (ro : RO) (depth : Int) (name : String)
    (s : State) : Outcome State :=
  checkDefaultinnerAux g (4 - depth).toNat value ro depth name s

/-- The function `checkDefault` (lines 111-116). The value `reflect.ValueOf`
returns has no read-only bit set. -/
def checkDefault (g : Runtime) (value : Interface) (s : State) : Outcome State :=
  match value with
  | none => .done s
  | some iv => checkDefaultinner g iv.val RO.clear 1 "" s

/-! ## The gates -/

/-- The function `checkValue` (lines 61-63). -/
def checkValue (g : Runtime) (v : Interface) (s : State) : Outcome State :=
  checkType g g.budget (TypeOf v) s

/-- The package `encoding/gob` at its boundary. `σ` is what the codec reads and
writes of its own (its streams, its registry) and `ρ` is the `error` it
returns. A decode also writes through its argument: `Fill` gives the
argument as it is after the call. -/
structure Gob (σ ρ : Type) where
  /-- The method `(*gob.Encoder).Encode`. -/
  Encode : Interface → σ → ρ × σ
  /-- The method `(*gob.Encoder).EncodeValue`. -/
  EncodeValue : RValue → σ → ρ × σ
  /-- The method `(*gob.Decoder).Decode`. -/
  Decode : Interface → σ → ρ × σ
  /-- The argument of `(*gob.Decoder).Decode` after the call, with the
  destination filled. -/
  Fill : Interface → σ → Interface
  /-- The function `gob.Register`. -/
  Register : Interface → σ → σ
  /-- The function `gob.RegisterName`. -/
  RegisterName : String → Interface → σ → σ

/-- What a gate call leaves behind: the value it returns, the diagnostic
state, the state of the codec and the argument as it is after the call. -/
structure Result (σ ρ : Type) where
  /-- The returned value. -/
  ret : ρ
  /-- The diagnostic state. -/
  diag : State
  /-- The codec state. -/
  codec : σ
  /-- The argument after the call; only `Decode` changes it. -/
  dest : Interface

/-- The method `(*LabEncoder).Encode` (lines 28-32). -/
def Encode {σ ρ : Type} (gob : Gob σ ρ) (g : Runtime) (v : Interface) (s : State) (c : σ) :
    Outcome (Result σ ρ) :=
  (checkValue g v s).bind fun s1 =>
    let r := gob.Encode v c
    .done { ret := r.1, diag := s1, codec := r.2, dest := v }

/-- The method `(*LabEncoder).EncodeValue` (lines 34-37). -/
def EncodeValue {σ ρ : Type} (gob : Gob σ ρ) (g : Runtime) (value : RValue) (s : State)
    (c : σ) : Outcome (Result σ ρ) :=
  value.Interface.bind fun v =>
    (checkValue g v s).bind fun s1 =>
      let r := gob.EncodeValue value c
      .done { ret := r.1, diag := s1, codec := r.2, dest := v }

/-- The method `(*LabDecoder).Decode` (lines 50-54). -/
def Decode {σ ρ : Type} (gob : Gob σ ρ) (g : Runtime) (v : Interface) (s : State) (c : σ) :
    Outcome (Result σ ρ) :=
  (checkValue g v s).bind fun s1 =>
    (checkDefault g v s1).bind fun s2 =>
      let r := gob.Decode v c
      .done { ret := r.1, diag := s2, codec := r.2, dest := gob.Fill v c }

/-- The function `Register` (lines 56-59). -/
def Register {σ ρ : Type} (gob : Gob σ ρ) (g : Runtime) (value : Interface) (s : State)
    (c : σ) : Outcome (Result σ Unit) :=
  (checkValue g value s).bind fun s1 =>
    .done { ret := (), diag := s1, codec := gob.Register value c, dest := value }

/-- The function `RegisterName` (lines 65-68). -/
def RegisterName {σ ρ : Type} (gob : Gob σ ρ) (g : Runtime) (name : String)
    (value : Interface) (s : State) (c : σ) : Outcome (Result σ Unit) :=
  (checkValue g value s).bind fun s1 =>
    .done { ret := (), diag := s1, codec := gob.RegisterName name value c, dest := value }

/-- A call of one of the exported operations. -/
inductive Op where
  | Encode (v : Interface)
  | EncodeValue (value : RValue)
  | Decode (v : Interface)
  | Register (value : Interface)
  | RegisterName (name : String) (value : Interface)

/-- The effect of one operation on the diagnostic state and the codec. -/
def Op.run {σ ρ : Type} (gob : Gob σ ρ) (g : Runtime) (op : Op) (sc : State × σ) :
    Outcome (State × σ) :=
  match op with
  | .Encode v => (Labgob.Encode gob g v sc.1 sc.2).bind fun r => .done (r.diag, r.codec)
  | .EncodeValue value =>
    (Labgob.EncodeValue gob g value sc.1 sc.2).bind fun r => .done (r.diag, r.codec)
  | .Decode v => (Labgob.Decode gob g v sc.1 sc.2).bind fun r => .done (r.diag, r.codec)
  | .Register value =>
    (Labgob.Register gob g value sc.1 sc.2).bind fun r => .done (r.diag, r.codec)
  | .RegisterName name value =>
    (Labgob.RegisterName gob g name value sc.1 sc.2).bind fun r => .done (r.diag, r.codec)

/-- A sequence of operations, run in order. -/
def runOps {σ ρ : Type} (gob : Gob σ ρ) (g : Runtime) : List Op → State × σ → Outcome (State × σ)
  | [], sc => .done sc
  | op :: rest, sc => (op.run gob g sc).bind (runOps gob g rest)

/-- A sequence of `checkType` calls on non-nil types, run in order. -/
def checkTypes (g : Runtime) : List TypeId → State → Outcome State
  | [], s => .done s
  | t :: rest, s => (checkType g g.budget (some t) s).bind (checkTypes g rest)

/-! ## Notions used to state the properties of `checkType` -/

/-- The field of a struct is flagged: the first rune of its name is not an
upper-case letter. -/
def lowerCaseField (g : Runtime) (f : StructField) : Bool :=
  g.IsUpper (DecodeRuneInString f.Name) == false

/-- The types `checkType` calls itself on when it dispatches on `t`: the
field types of a struct, the element type of a slice, array or pointer, the
value type and then the key type of a map. -/
def children (g : Runtime) (t : TypeId) : List TypeId :=
  match (g.typ t).Kind with
  | .Struct => (g.typ t).Fields.map StructField.Typ
  | .Slice | .Array | .Ptr => [(g.typ t).Elem]
  | .Map => [(g.typ t).Elem, (g.typ t).Key]
  | _ => []

/-- One invisible-field line for each flagged field of a struct type, in
field order; nothing for a type of another kind. -/
def flagged (g : Runtime) (t : TypeId) : List Diag :=
  match (g.typ t).Kind with
  | .Struct =>
    ((g.typ t).Fields.filter (lowerCaseField g)).map
      fun f => Diag.lowerCase f.Name (g.typ t).Name
  | _ => []

/-- The type `u` is reachable from `t` through field, element, map-value and
map-key edges (in zero or more steps). -/
def Reach (g : Runtime) (t u : TypeId) : Prop :=
  Relation.ReflTransGen (fun a b => b ∈ children g a) t u

/-- The memo is closed under the child relation. -/
def Closed (g : Runtime) (memo : List TypeId) : Prop :=
  ∀ u ∈ memo, ∀ c ∈ children g u, c ∈ memo

/-- Number of descriptors of the table that are not in the memo: the
quantity that bounds the depth of the recursion of `checkType`. -/
def unchecked (g : Runtime) (s : State) : Nat :=
  ((Finset.range g.types.length).filter fun i => i ∉ s.checked).card

/-- Printing a line and counting it, or doing nothing. -/
def emit (d : Option Diag) (s : State) : State :=
  match d with
  | none => s
  | some line => { s with out := s.out ++ [line], errorCount := s.errorCount + 1 }

/-- The work `checkType` does after it has entered `t` in the memo, as a list
of steps: an optional line to print and count, then a type to recurse into. -/
def steps (g : Runtime) (t : TypeId) : List (Option Diag × TypeId) :=
  match (g.typ t).Kind with
  | .Struct =>
    (g.typ t).Fields.map fun f =>
      (if lowerCaseField g f then some (Diag.lowerCase f.Name (g.typ t).Name) else none,
        f.Typ)
  | .Slice | .Array | .Ptr => [(none, (g.typ t).Elem)]
  | .Map => [(none, (g.typ t).Elem), (none, (g.typ t).Key)]
  | _ => []

/-- Running a list of steps in order, with the recursive call passed as `rec`. -/
def runSteps (rec : TypeId → State → Outcome State) :
    List (Option Diag × TypeId) → State → Outcome State
  | [], s => .done s
  | (d, c) :: rest, s => (rec c (emit d s)).bind (runSteps rec rest)

/-- What a run from `s` to `s1` added: the types `new` entered in the memo and
the lines `dn` printed. `roots` are the types the run was started on and
`extra` the lines the caller itself prints. -/
structure Delta (g : Runtime) (roots : List TypeId) (extra : List Diag) (s s1 : State)
    (new : List TypeId) (dn : List Diag) : Prop where
  /-- The memo grew by `new`. -/
  checked_eq : s1.checked = new ++ s.checked
  /-- The output grew by `dn`. -/
  out_eq : s1.out = s.out ++ dn
  /-- The counter grew by the number of lines. -/
  count_eq : s1.errorCount = s.errorCount + dn.length
  /-- No type was entered twice. -/
  nodup : new.Nodup
  /-- No type that was in the memo was entered again. -/
  fresh : ∀ u ∈ new, u ∉ s.checked
  /-- The lines are those of the entered types, each once. -/
  perm : dn.Perm (new.flatMap (flagged g) ++ extra)
  /-- Every entered type is reachable from a root. -/
  reach : ∀ u ∈ new, ∃ c ∈ roots, Reach g c u
  /-- The children of every entered type are in the memo at the end. -/
  closed : ∀ u ∈ new, ∀ c ∈ children g u, c ∈ s1.checked
  /-- The roots are in the memo at the end. -/
  roots_mem : ∀ c ∈ roots, c ∈ s1.checked

/-! ## The lock discipline

The functions below are `checkType` and `checkDefaultinner` again, line by
line, with every `mu.Lock()`, `mu.Unlock()`, access to `checked` or
`errorCount` and every recursive call recorded as an event, also on a run that
panics or exhausts the budget. A monitor then reads the events. -/

/-- An operation on the mutex `mu` or on a shared variable, or a recursive
call. -/
inductive Ev where
  /-- The call `mu.Lock()` (lines 72, 91, 151). -/
  | lock
  /-- The call `mu.Unlock()` (lines 77, 81, 93, 168). -/
  | unlock
  /-- The membership test of lines 73-76: it reads `checked` and `checked[t]`. -/
  | memoTest (t : TypeId)
  /-- The insertion `checked[t] = true` of line 80. -/
  | memoInsert (t : TypeId)
  /-- The read of `errorCount` in the test of line 153. -/
  | countRead
  /-- The increment `errorCount++` (lines 92, 166). -/
  | countIncr
  /-- A recursive call of `checkType` (lines 95, 99, 102, 103) or of
  `checkDefaultinner` (lines 133, 141). -/
  | call
  deriving DecidableEq, Repr

/-- What the monitor knows of the mutex: it is free, or the caller holds it
and has, since it took it, tested the memo for `tested`. -/
inductive Mu where
  | free
  | held (tested : Option TypeId)
  deriving DecidableEq, Repr

/-- One step of the monitor; `none` is a breach of the discipline. Locking a
held mutex (the caller would wait for itself), unlocking a free one, touching
`checked` or `errorCount` without the lock, inserting a type that was not
tested in the same critical section, and making a recursive call with the
lock held are breaches. -/
def Mu.step : Mu → Ev → Option Mu
  | .free, .lock => some (.held none)
  | .held _, .unlock => some .free
  | .held _, .memoTest t => some (.held (some t))
  | .held (some u), .memoInsert t => if u = t then some (.held (some u)) else none
  | .held x, .countRead => some (.held x)
  | .held x, .countIncr => some (.held x)
  | .free, .call => some .free
  | _, _ => none

/-- The monitor run over a list of events. -/
def monitor : Mu → List Ev → Option Mu
  | m, [] => some m
  | m, e :: rest => (m.step e).bind fun m1 => monitor m1 rest

/-- The events of a call so far, and how it ended. -/
abbrev Traced (α : Type) := List Ev × Outcome α

/-- A call that returns without touching the mutex or the shared variables. -/
def Traced.done {α : Type} (a : α) : Traced α := ([], .done a)

/-- Events that come before a call. -/
def Traced.after {α : Type} (evs : List Ev) (x : Traced α) : Traced α := (evs ++ x.1, x.2)

/-- Sequencing of traced calls: the events of the second follow those of the
first, and nothing follows a panic or an exhausted budget. -/
def Traced.bind {α β : Type} (x : Traced α) (f : α → Traced β) : Traced β :=
  match x.2 with
  | .done a => (x.1 ++ (f a).1, (f a).2)
  | .panic => (x.1, .panic)
  | .outOfFuel => (x.1, .outOfFuel)

/-- The events of lines 88-94: the counter is incremented between `mu.Lock()`
and `mu.Unlock()` when the field is flagged. -/
def flagFieldEv (g : Runtime) (f : StructField) : List Ev :=
  if g.IsUpper (DecodeRuneInString f.Name) == false then [.lock, .countIncr, .unlock] else []

/-- The field loop of `checkType` with its events. -/
def fieldLoopEv (g : Runtime) (t : TypeId) (rec : TypeId → State → Traced State) :
    List StructField → State → Traced State
  | [], s => Traced.done s
  | f :: rest, s =>
    (Traced.after (flagFieldEv g f ++ [.call]) (rec f.Typ (flagField g t f s))).bind
      (fieldLoopEv g t rec rest)

/-- The function `checkType` with its events. -/
def checkTypeEv (g : Runtime) : Nat → Option TypeId → State → Traced State
  | _, none, _ => ([], .panic)
  | 0, some _, _ => ([], .outOfFuel)
  | fuel + 1, some t, s =>
    let k := (g.typ t).Kind
    if t ∈ s.checked then ([.lock, .memoTest t, .unlock], .done s)
    else
      let s1 : State := { s with checked := t :: s.checked }
      Traced.after [.lock, .memoTest t, .memoInsert t, .unlock]
        (match k with
        | .Struct =>
          fieldLoopEv g t (fun u s2 => checkTypeEv g fuel (some u) s2) (g.typ t).Fields s1
        | .Slice | .Array | .Ptr =>
          Traced.after [.call] (checkTypeEv g fuel (some (g.typ t).Elem) s1)
        | .Map =>
          (Traced.after [.call] (checkTypeEv g fuel (some (g.typ t).Elem) s1)).bind
            fun s2 => Traced.after [.call] (checkTypeEv g fuel (some (g.typ t).Key) s2)
        | _ => Traced.done s1)

/-- The field loop of `checkDefaultinner` with its events. -/
def structLoopEv (g : Runtime) (ro : RO) (rec : Value → RO → String → State → Traced State) :
    List (FieldDesc × Value) → String → State → Traced State
  | [], _, s => Traced.done s
  | (f, vv) :: rest, name, s =>
    let name1 := if f.Name != "" then name ++ "." ++ f.Name else name
    (Traced.after [.call] (rec vv (ro.ofField g f) name1 s)).bind
      (structLoopEv g ro rec rest name1)

/-- The body of `checkDefaultinner` with its events: lines 151-168 read and
increment the counter between `mu.Lock()` and `mu.Unlock()`; the panic of
line 149 comes before line 151. -/
def checkDefaultinnerAuxEv (g : Runtime) :
    Nat → Value → RO → Int → String → State → Traced State
  | 0, _, _, _, _, s => Traced.done s
  | levels + 1, value, ro, depth, name, s =>
    if depth > 3 then Traced.done s
    else
      match value with
      | .VStruct _ fields =>
        structLoopEv g ro
          (fun vv r nm s1 => checkDefaultinnerAuxEv g levels vv r (depth + 1) nm s1)
          fields name s
      | .VPtr _ elem =>
        match elem with
        | none => Traced.done s
        | some pointee =>
          Traced.after [.call] (checkDefaultinnerAuxEv g levels pointee ro (depth + 1) name s)
      | .VOther _ _ _ => Traced.done s
      | scalar =>
        if ro.isSet then ([], .panic)
        else if scalar.nonDefault then
          ([.lock, .countRead, .countIncr, .unlock], .done (report name scalar.typeName s))
        else Traced.done s

/-- The function `checkDefaultinner` with its events. -/
def checkDefaultinnerEv (g : Runtime) (value : Value) (ro : RO) (depth : Int) (name : String)
    (s : State) : Traced State :=
  checkDefaultinnerAuxEv g (4 - depth).toNat value ro depth name s

/-- Lines 72-81 as one critical section on the memo: whether the caller goes
on to the kind dispatch of `t`, and the memo it leaves. -/
def enter (t : TypeId) (memo : List TypeId) : Bool × List TypeId :=
  if t ∈ memo then (false, memo) else (true, t :: memo)

/-- Several callers execute the critical section of lines 72-81, each for a
type of its own choice; the mutex lets them in one at a time, in the order of
the list (caller, type). The result lists the sections after which the
caller went on to the kind dispatch. The other critical sections, which
increment the counter, do not touch the memo and are left out. -/
def dispatched : List (Nat × TypeId) → List TypeId → List (Nat × TypeId)
  | [], _ => []
  | (who, t) :: rest, memo =>
    if (enter t memo).1 then (who, t) :: dispatched rest (enter t memo).2
    else dispatched rest (enter t memo).2

/-- The events of a call keep the discipline: read by the monitor from a
free mutex they cause no breach and leave the mutex free. -/
def Disciplined {α : Type} (x : Traced α) : Prop := monitor .free x.1 = some .free

/-! ### Sample programs -/

/-- Descriptor of a scalar type. -/
def scalarT (k : Kind) (name : String) : RType :=
  { Kind := k, Name := name, Fields := [], Elem := 0, Key := 0 }

/-- The types of a program declaring
`type T struct { ID int; name string }`: 0 is `int`, 1 is `string`, 2 is `T`,
3 is `*T`. Upper case is decided on ASCII here. -/
def sampleT : Runtime :=
  { types := [scalarT Kind.Int "int", scalarT Kind.String "string",
      { Kind := Kind.Struct, Name := "T",
        Fields := [⟨"ID", 0⟩, ⟨"name", 1⟩], Elem := 0, Key := 0 },
      { Kind := Kind.Ptr, Name := "", Fields := [], Elem := 2, Key := 0 }],
    IsUpper := Char.isUpper }

/-- The types of a program declaring `type Node struct { Next *Node }`:
0 is `Node`, 1 is `*Node`. -/
def sampleNode : Runtime :=
  { types := [
      { Kind := Kind.Struct, Name := "Node",
        Fields := [⟨"Next", 1⟩], Elem := 0, Key := 0 },
      { Kind := Kind.Ptr, Name := "", Fields := [], Elem := 0, Key := 0 }],
    IsUpper := Char.isUpper }

/-- Descriptor of a named (not embedded) field. -/
def fld (name : String) : FieldDesc := { Name := name, Anonymous := false }

/-- Descriptor of an embedded field of the type called `typeName`. -/
def embedded (typeName : String) : FieldDesc := { Name := typeName, Anonymous := true }

/-- The value `T{ID: i, name: str}` of the struct of `sampleT`. -/
def valTOf (i : Int) (str : String) : Value :=
  .VStruct "T" [(fld "ID", .VInt .Int "int" i), (fld "name", .VString "string" str)]

/-- The value `T{ID: 7, name: ""}` of the struct of `sampleT`. -/
def valT : Value := valTOf 7 ""

/-- The value `&T{ID: 0, name: "x"}`, of the type `*T` of `sampleT`. -/
def ptrT : Value := .VPtr "" (some (valTOf 0 "x"))

/-- The types of a program declaring `type U struct { X int; m []int }`:
0 is `int`, 1 is `[]int`, 2 is `U`, 3 is `*U`. -/
def sampleU : Runtime :=
  { types := [scalarT Kind.Int "int",
      { Kind := Kind.Slice, Name := "", Fields := [], Elem := 0, Key := 0 },
      { Kind := Kind.Struct, Name := "U",
        Fields := [⟨"X", 0⟩, ⟨"m", 1⟩], Elem := 0, Key := 0 },
      { Kind := Kind.Ptr, Name := "", Fields := [], Elem := 2, Key := 0 }],
    IsUpper := Char.isUpper }

/-- The value `&U{X: x, m: nil}`. -/
def ptrU (x : Int) : Value :=
  .VPtr "" (some (.VStruct "U" [(fld "X", .VInt .Int "int" x), (fld "m", .VOther .Slice "" [])]))

/-- The types of a program declaring `type S struct { A int; B int }`:
0 is `int`, 1 is `S`, 2 is `*S`. -/
def sampleS : Runtime :=
  { types := [scalarT Kind.Int "int",
      { Kind := Kind.Struct, Name := "S",
        Fields := [⟨"A", 0⟩, ⟨"B", 0⟩], Elem := 0, Key := 0 },
      { Kind := Kind.Ptr, Name := "", Fields := [], Elem := 1, Key := 0 }],
    IsUpper := Char.isUpper }

/-- The value `&S{A: a, B: b}`. -/
def ptrSOf (a b : Int) : Value :=
  .VPtr "" (some (.VStruct "S" [(fld "A", .VInt .Int "int" a), (fld "B", .VInt .Int "int" b)]))

/-- The value `&S{A: 0, B: 1}`. -/
def ptrS : Value :=
  .VPtr "" (some (.VStruct "S" [(fld "A", .VInt .Int "int" 0), (fld "B", .VInt .Int "int" 1)]))

/-- The value `&Outer{In: Inner{X: v}}`: `v` lies four levels down. -/
def nested (v : Value) : Value :=
  .VPtr "" (some (.VStruct "Outer" [(fld "In", .VStruct "Inner" [(fld "X", v)])]))

/-- The types of a program declaring `type Inner struct { X int }` and
`type Outer struct { N int; In Inner; P *Inner }`: 0 is `int`, 1 is `Inner`,
2 is `*Inner`, 3 is `Outer`, 4 is `*Outer`. -/
def sampleOuter : Runtime :=
  { types := [scalarT Kind.Int "int",
      { Kind := Kind.Struct, Name := "Inner", Fields := [⟨"X", 0⟩], Elem := 0, Key := 0 },
      { Kind := Kind.Ptr, Name := "", Fields := [], Elem := 1, Key := 0 },
      { Kind := Kind.Struct, Name := "Outer",
        Fields := [⟨"N", 0⟩, ⟨"In", 1⟩, ⟨"P", 2⟩], Elem := 0, Key := 0 },
      { Kind := Kind.Ptr, Name := "", Fields := [], Elem := 3, Key := 0 }],
    IsUpper := Char.isUpper }

/-- The fields of the value `Outer{N: n, In: Inner{X: x}, P: &Inner{X: y}}`. -/
def outerFields (n x y : Int) : List (FieldDesc × Value) :=
  [(fld "N", .VInt .Int "int" n),
    (fld "In", .VStruct "Inner" [(fld "X", .VInt .Int "int" x)]),
    (fld "P", .VPtr "" (some (.VStruct "Inner" [(fld "X", .VInt .Int "int" y)])))]

/-- The value `&Outer{N: n, In: Inner{X: x}, P: &Inner{X: y}}`. -/
def ptrOuter (n x y : Int) : Value :=
  .VPtr "" (some (.VStruct "Outer" (outerFields n x y)))

/-- A codec that does nothing and returns nothing. -/
def idleGob : Gob Unit Unit :=
  { Encode := fun _ c => ((), c), EncodeValue := fun _ c => ((), c),
    Decode := fun _ c => ((), c), Fill := fun v _ => v, Register := fun _ c => c,
    RegisterName := fun _ _ c => c }

/-- A codec whose decode stores the value of its state in the destination. -/
def fillGob : Gob Interface Unit :=
  { Encode := fun _ c => ((), c), EncodeValue := fun _ c => ((), c),
    Decode := fun _ c => ((), c), Fill := fun _ c => c, Register := fun _ c => c,
    RegisterName := fun _ _ c => c }

/-! ## Notions used to state the properties of the auditor -/

/-- Number of scalar leaves (bool, integer, float, string) of `v` that hold a
value other than the zero value and lie within the first `levels` levels of
`v`, the root being the first level and every struct field and every pointee
of a non-nil pointer being one level below its parent. -/
def nonDefaultLeaves : Nat → Value → Nat
  | 0, _ => 0
  | levels + 1, v =>
    match v with
    | .VStruct _ fields => (fields.map fun p => nonDefaultLeaves levels p.2).sum
    | .VPtr _ none => 0
    | .VPtr _ (some pointee) => nonDefaultLeaves levels pointee
    | .VOther _ _ _ => 0
    | scalar => if scalar.nonDefault then 1 else 0

/-- The line is an invisible-field line. -/
def Diag.isLowerCase : Diag → Bool
  | .lowerCase _ _ => true
  | .nonDefault _ => false

/-- The invariant of the output: nothing has been printed exactly as long as
the counter is zero, and every line after the first is an invisible-field
line. -/
def FirstLineOnly (s : State) : Prop :=
  (s.out = [] ↔ s.errorCount = 0) ∧ ∀ d ∈ s.out.tail, Diag.isLowerCase d = true

/-- The invariant of the memo: no type was entered twice, and the
invisible-field lines printed are, up to order, those of the entered types,
each type contributing its lines once. -/
def OncePerType (g : Runtime) (s : State) : Prop :=
  s.checked.Nodup ∧ (s.out.filter Diag.isLowerCase).Perm (s.checked.flatMap (flagged g))

/-- Number of non-default scalar leaves the auditor meets in a sequence of
operations: those within three levels of the argument of every `Decode`. -/
def auditedLeaves : List Op → Nat
  | [] => 0
  | .Decode (some iv) :: rest => nonDefaultLeaves 3 iv.val + auditedLeaves rest
  | _ :: rest => auditedLeaves rest

/-- The diagnostic state a gate call leaves, when it returns. -/
def diagAfter {σ ρ : Type} (x : Outcome (Result σ ρ)) : Outcome State :=
  x.bind fun r => .done r.diag

/-- The codec state a gate call leaves, when it returns. -/
def codecAfter {σ ρ : Type} (x : Outcome (Result σ ρ)) : Outcome σ :=
  x.bind fun r => .done r.codec

/-- The argument as a gate call leaves it, when it returns. -/
def destAfter {σ ρ : Type} (x : Outcome (Result σ ρ)) : Outcome Interface :=
  x.bind fun r => .done r.dest

/-- The value is of one of the scalar kinds of lines 143-147, for which
`checkDefaultinner` calls `value.Interface()`. -/
def Value.isScalar : Value → Bool
  | .VBool _ _ | .VInt _ _ _ | .VFloat _ _ _ | .VString _ _ => true
  | _ => false

/-- The kinds for which the switch of `checkDefaultinner` has a case
(lines 126, 137 and 143-147). -/
def auditedKind : Kind → Bool
  | .Struct | .Ptr | .Bool
  | .Int | .Int8 | .Int16 | .Int32 | .Int64
  | .Uint | .Uint8 | .Uint16 | .Uint32 | .Uint64
  | .Uintptr | .Float32 | .Float64 | .String => true
  | _ => false

/-! ## Properties of the Type-Visibility Checker -/

theorem Outcome.bind_done {α β : Type} (a : α) (f : α → Outcome β) :
    (Outcome.done a).bind f = f a := rfl

theorem Outcome.bind_pure {α : Type} (x : Outcome α) : x.bind Outcome.done = x := by
  cases x <;> rfl

theorem Outcome.bind_assoc {α β γ : Type} (x : Outcome α) (f : α → Outcome β)
    (k : β → Outcome γ) : (x.bind f).bind k = x.bind fun a => (f a).bind k := by
  cases x <;> rfl

theorem runSteps_nil_fun (rec : TypeId → State → Outcome State) :
    runSteps rec [] = Outcome.done :=
  funext fun _ => rfl

theorem runSteps_cons_fun (rec : TypeId → State → Outcome State) (d : Option Diag)
    (c : TypeId) (rest : List (Option Diag × TypeId)) :
    runSteps rec ((d, c) :: rest) = fun s => (rec c (emit d s)).bind (runSteps rec rest) :=
  funext fun _ => rfl

theorem emit_checked (d : Option Diag) (s : State) : (emit d s).checked = s.checked := by
  cases d <;> rfl

theorem flagField_eq_emit (g : Runtime) (t : TypeId) (f : StructField) (s : State) :
    flagField g t f s =
      emit (if lowerCaseField g f then some (Diag.lowerCase f.Name (g.typ t).Name) else none) s := by
  unfold flagField lowerCaseField
  by_cases h : (g.IsUpper (DecodeRuneInString f.Name) == false) = true <;> simp [h, emit]

theorem fieldLoop_eq_runSteps (g : Runtime) (t : TypeId)
    (rec : TypeId → State → Outcome State) (fs : List StructField) (s : State) :
    fieldLoop g t rec fs s =
      runSteps rec (fs.map fun f =>
        (if lowerCaseField g f then some (Diag.lowerCase f.Name (g.typ t).Name) else none,
          f.Typ)) s := by
  induction fs generalizing s with
  | nil => rfl
  | cons f rest ih =>
    simp only [fieldLoop, List.map_cons, runSteps, flagField_eq_emit]
    congr 1
    funext s1
    exact ih s1

/-- The body of `checkType` is: look the type up in the memo, enter it, run
its steps. -/
theorem checkType_succ (g : Runtime) (fuel : Nat) (t : TypeId) (s : State) :
    checkType g (fuel + 1) (some t) s =
      if t ∈ s.checked then .done s
      else runSteps (fun u s2 => checkType g fuel (some u) s2) (steps g t)
        { s with checked := t :: s.checked } := by
  simp only [checkType, steps]
  by_cases h : t ∈ s.checked
  · simp [h]
  · simp only [h, if_false]
    cases hk : (g.typ t).Kind <;>
      simp [runSteps_nil_fun, runSteps_cons_fun, emit, fieldLoop_eq_runSteps,
        Outcome.bind_pure]

theorem children_eq_steps (g : Runtime) (t : TypeId) :
    children g t = (steps g t).map Prod.snd := by
  unfold children steps
  cases (g.typ t).Kind <;> simp [Function.comp_def]

theorem flagged_eq_steps (g : Runtime) (t : TypeId) :
    flagged g t = (steps g t).filterMap Prod.fst := by
  unfold flagged steps
  cases (g.typ t).Kind <;> simp
  induction (g.typ t).Fields with
  | nil => rfl
  | cons f rest ih =>
    by_cases h : lowerCaseField g f = true <;> simp [List.filter_cons, List.filterMap_cons, h, ih]

theorem steps_absent (g : Runtime) (t : TypeId) (h : g.types.length ≤ t) : steps g t = [] := by
  have : g.typ t = RType.absent := List.getD_eq_default _ _ h
  simp [steps, this, RType.absent]

theorem unchecked_le (g : Runtime) (s : State) : unchecked g s ≤ g.types.length := by
  unfold unchecked
  calc _ ≤ (Finset.range g.types.length).card := Finset.card_filter_le _ _
    _ = g.types.length := Finset.card_range _

theorem unchecked_mono (g : Runtime) (s s1 : State) (h : s.checked ⊆ s1.checked) :
    unchecked g s1 ≤ unchecked g s := by
  unfold unchecked
  apply Finset.card_le_card
  intro i hi
  simp only [Finset.mem_filter] at hi ⊢
  exact ⟨hi.1, fun hm => hi.2 (h hm)⟩

theorem unchecked_lt (g : Runtime) (s : State) (t : TypeId) (ht : t < g.types.length)
    (hn : t ∉ s.checked) :
    unchecked g { s with checked := t :: s.checked } < unchecked g s := by
  unfold unchecked
  apply Finset.card_lt_card
  rw [Finset.ssubset_iff_of_subset]
  · refine ⟨t, ?_, ?_⟩
    · simp [ht, hn]
    · simp
  · intro i hi
    simp only [Finset.mem_filter, List.mem_cons, not_or] at hi ⊢
    exact ⟨hi.1, hi.2.2⟩

theorem Reach.refl (g : Runtime) (t : TypeId) : Reach g t t := Relation.ReflTransGen.refl

theorem Reach.of_child (g : Runtime) {t c u : TypeId} (hc : c ∈ children g t)
    (h : Reach g c u) : Reach g t u :=
  Relation.ReflTransGen.head hc h

/-- A memo that is closed under the child relation and contains `t` contains
everything reachable from `t`. -/
theorem Closed.reach_mem (g : Runtime) {memo : List TypeId} (hc : Closed g memo)
    {t u : TypeId} (ht : t ∈ memo) (h : Reach g t u) : u ∈ memo := by
  induction h with
  | refl => exact ht
  | tail _ hbc ih => exact hc _ ih _ hbc

theorem perm_interleave {α : Type} (x dn1 dn2 a1 a2 r : List α) (p1 : dn1.Perm (a1 ++ []))
    (p2 : dn2.Perm (a2 ++ r)) : ((x ++ dn1) ++ dn2).Perm ((a2 ++ a1) ++ (x ++ r)) := by
  rw [← Multiset.coe_eq_coe] at p1 p2 ⊢
  simp only [← Multiset.coe_add, List.append_nil] at p1 p2 ⊢
  rw [p1, p2]
  abel

/-- The steps of a list, run from a state in which at most `m` descriptors are
unchecked, by a recursive call that meets its specification on such states. -/
theorem runSteps_spec (g : Runtime) (rec : TypeId → State → Outcome State) (m : Nat)
    (hrec : ∀ u s2, unchecked g s2 ≤ m →
      ∃ s3 new dn, rec u s2 = .done s3 ∧ Delta g [u] [] s2 s3 new dn) :
    ∀ (st : List (Option Diag × TypeId)) (sa : State), unchecked g sa ≤ m →
      ∃ sb new dn, runSteps rec st sa = .done sb ∧
        Delta g (st.map Prod.snd) (st.filterMap Prod.fst) sa sb new dn := by
  intro st
  induction st with
  | nil =>
    intro sa _
    exact ⟨sa, [], [], rfl, by constructor <;> simp⟩
  | cons p rest ih =>
    obtain ⟨d, c⟩ := p
    intro sa hsa
    have hsa1 : unchecked g (emit d sa) ≤ m :=
      le_trans (unchecked_mono g sa _ (by rw [emit_checked]; exact fun _ h => h)) hsa
    obtain ⟨s3, new1, dn1, h3, D1⟩ := hrec c (emit d sa) hsa1
    have hs3 : unchecked g s3 ≤ m := by
      refine le_trans (unchecked_mono g (emit d sa) s3 ?_) hsa1
      rw [D1.checked_eq]; exact List.subset_append_right _ _
    obtain ⟨sb, new2, dn2, hb, D2⟩ := ih s3 hs3
    refine ⟨sb, new2 ++ new1, (d.toList ++ dn1) ++ dn2, ?_, ?_⟩
    · simp only [runSteps, h3, Outcome.bind_done, hb]
    · have hck : s3.checked = new1 ++ sa.checked := by rw [D1.checked_eq, emit_checked]
      constructor
      · rw [D2.checked_eq, hck, List.append_assoc]
      · rw [D2.out_eq, D1.out_eq]
        cases d <;> simp [emit]
      · rw [D2.count_eq, D1.count_eq]
        cases d <;> simp [emit] <;> omega
      · rw [List.nodup_append]
        refine ⟨D2.nodup, D1.nodup, ?_⟩
        intro u hu2 hu1
        exact D2.fresh u hu2 (by rw [hck]; exact List.mem_append_left _ hu1)
      · intro u hu
        rcases List.mem_append.1 hu with hu | hu
        · intro hm
          exact D2.fresh u hu (by rw [hck]; exact List.mem_append_right _ hm)
        · have := D1.fresh u hu
          rwa [emit_checked] at this
      · have hfm : List.filterMap Prod.fst ((d, c) :: rest) =
            d.toList ++ List.filterMap Prod.fst rest := by
          cases d <;> rfl
        rw [hfm, List.flatMap_append]
        exact perm_interleave _ _ _ _ _ _ D1.perm D2.perm
      · intro u hu
        rcases List.mem_append.1 hu with hu | hu
        · obtain ⟨r, hr, hru⟩ := D2.reach u hu
          exact ⟨r, by simp only [List.map_cons, List.mem_cons]; exact Or.inr hr, hru⟩
        · obtain ⟨r, hr, hru⟩ := D1.reach u hu
          simp only [List.mem_singleton] at hr
          subst hr
          exact ⟨r, by simp, hru⟩
      · intro u hu k hk
        rcases List.mem_append.1 hu with hu | hu
        · exact D2.closed u hu k hk
        · rw [D2.checked_eq]
          exact List.mem_append_right _ (D1.closed u hu k hk)
      · intro r hr
        simp only [List.map_cons, List.mem_cons] at hr
        rcases hr with hr | hr
        · subst hr
          rw [D2.checked_eq]
          exact List.mem_append_right _ (D1.roots_mem r (by simp))
        · exact D2.roots_mem r hr

/-- Entering `t` in the memo and then running its steps is a run rooted at `t`. -/
theorem Delta.enter (g : Runtime) (t : TypeId) (s sb : State) (new : List TypeId)
    (dn : List Diag) (ht : t ∉ s.checked)
    (D : Delta g ((steps g t).map Prod.snd) ((steps g t).filterMap Prod.fst)
      { s with checked := t :: s.checked } sb new dn) :
    Delta g [t] [] s sb (new ++ [t]) dn := by
  have hsb : sb.checked = new ++ t :: s.checked := D.checked_eq
  constructor
  · rw [hsb]; simp
  · exact D.out_eq
  · exact D.count_eq
  · rw [List.nodup_append]
    refine ⟨D.nodup, List.nodup_singleton t, ?_⟩
    intro u hu hut
    simp only [List.mem_singleton] at hut
    subst hut
    exact D.fresh u hu (by simp)
  · intro u hu
    rcases List.mem_append.1 hu with hu | hu
    · intro hm
      exact D.fresh u hu (List.mem_cons_of_mem _ hm)
    · simp only [List.mem_singleton] at hu
      subst hu
      exact ht
  · have := D.perm
    rw [← flagged_eq_steps] at this
    simpa [List.flatMap_append] using this
  · intro u hu
    refine ⟨t, by simp, ?_⟩
    rcases List.mem_append.1 hu with hu | hu
    · obtain ⟨c, hc, hcu⟩ := D.reach u hu
      rw [← children_eq_steps] at hc
      exact Reach.of_child g hc hcu
    · simp only [List.mem_singleton] at hu
      subst hu
      exact Reach.refl g u
  · intro u hu c hc
    rcases List.mem_append.1 hu with hu | hu
    · exact D.closed u hu c hc
    · simp only [List.mem_singleton] at hu
      subst hu
      rw [children_eq_steps] at hc
      exact D.roots_mem c hc
  · intro c hc
    simp only [List.mem_singleton] at hc
    subst hc
    rw [hsb]; simp

/-- Specification of `checkType`: with a budget above the number of unchecked
descriptors the call returns, and what it adds to the state is described by
`Delta`. -/
theorem checkType_spec (g : Runtime) :
    ∀ (fuel : Nat) (t : TypeId) (s : State), unchecked g s < fuel →
      ∃ s1 new dn, checkType g fuel (some t) s = .done s1 ∧ Delta g [t] [] s s1 new dn := by
  intro fuel
  induction fuel with
  | zero => intro t s h; omega
  | succ fuel ih =>
    intro t s hs
    rw [checkType_succ]
    by_cases ht : t ∈ s.checked
    · refine ⟨s, [], [], by simp [ht], ?_⟩
      constructor <;> simp [ht]
    · simp only [ht, if_false]
      by_cases hlt : t < g.types.length
      · have hdec := unchecked_lt g s t hlt ht
        have hrec : ∀ u s2, unchecked g s2 ≤ fuel - 1 →
            ∃ s3 new dn, checkType g fuel (some u) s2 = .done s3 ∧ Delta g [u] [] s2 s3 new dn :=
          fun u s2 h2 => ih u s2 (by omega)
        obtain ⟨sb, new, dn, hb, D⟩ :=
          runSteps_spec g (fun u s2 => checkType g fuel (some u) s2) (fuel - 1) hrec
            (steps g t) { s with checked := t :: s.checked } (by omega)
        exact ⟨sb, new ++ [t], dn, hb, Delta.enter g t s sb new dn ht D⟩
      · have hst := steps_absent g t (not_lt.1 hlt)
        refine ⟨{ s with checked := t :: s.checked }, [] ++ [t], [], by rw [hst]; rfl, ?_⟩
        apply Delta.enter g t s _ [] [] ht
        rw [hst]
        constructor <;> simp

/-- With the budget `g.budget`, `checkType` returns on every non-nil type. -/
theorem checkType_budget (g : Runtime) (t : TypeId) (s : State) :
    ∃ s1 new dn, checkType g g.budget (some t) s = .done s1 ∧ Delta g [t] [] s s1 new dn :=
  checkType_spec g g.budget t s (Nat.lt_succ_of_le (unchecked_le g s))

theorem runSteps_mono (rec rec1 : TypeId → State → Outcome State)
    (h : ∀ u s r, rec u s = .done r → rec1 u s = .done r) :
    ∀ (st : List (Option Diag × TypeId)) (s r : State),
      runSteps rec st s = .done r → runSteps rec1 st s = .done r := by
  intro st
  induction st with
  | nil => intro s r hr; exact hr
  | cons p rest ih =>
    obtain ⟨d, c⟩ := p
    intro s r hr
    simp only [runSteps] at hr ⊢
    cases hc : rec c (emit d s) with
    | done a =>
      rw [hc, Outcome.bind_done] at hr
      rw [h c _ a hc, Outcome.bind_done]
      exact ih a r hr
    | panic => rw [hc] at hr; cases hr
    | outOfFuel => rw [hc] at hr; cases hr

/-- A larger budget does not change a result. -/
theorem checkType_fuel_succ (g : Runtime) :
    ∀ (fuel : Nat) (t : TypeId) (s r : State),
      checkType g fuel (some t) s = .done r → checkType g (fuel + 1) (some t) s = .done r := by
  intro fuel
  induction fuel with
  | zero => intro t s r h; cases h
  | succ fuel ih =>
    intro t s r h
    rw [checkType_succ] at h ⊢
    by_cases ht : t ∈ s.checked
    · simpa [ht] using h
    · simp only [ht, if_false] at h ⊢
      exact runSteps_mono _ _ (fun u s2 r2 h2 => ih u s2 r2 h2) _ _ _ h

theorem checkType_fuel_add (g : Runtime) (fuel : Nat) (t : TypeId) (s r : State)
    (h : checkType g fuel (some t) s = .done r) (k : Nat) :
    checkType g (fuel + k) (some t) s = .done r := by
  induction k with
  | zero => exact h
  | succ k ih => exact checkType_fuel_succ g (fuel + k) t s r ih

/-- A type that is in the memo is left alone, whatever the budget. -/
theorem checkType_of_mem (g : Runtime) (fuel : Nat) (t : TypeId) (s : State)
    (h : t ∈ s.checked) : checkType g (fuel + 1) (some t) s = .done s := by
  rw [checkType_succ]; simp [h]

/-- After a run from a closed memo the memo is closed again. -/
theorem Delta.closed_after (g : Runtime) {roots : List TypeId} {extra : List Diag}
    {s s1 : State} {new : List TypeId} {dn : List Diag}
    (D : Delta g roots extra s s1 new dn) (hc : Closed g s.checked) : Closed g s1.checked := by
  intro u hu c hcu
  rw [D.checked_eq] at hu
  rcases List.mem_append.1 hu with hu | hu
  · exact D.closed u hu c hcu
  · rw [D.checked_eq]
    exact List.mem_append_right _ (hc u hu c hcu)

/-- C1. Idempotence of `checkType` on the diagnostic state: for every non-nil
type and every state the call returns, and a second call right after it
returns the state of the first unchanged, so it enters nothing in the memo,
counts nothing and prints nothing; this holds for every budget from `g.budget`
on. For `struct { ID int; name string }` from the initial state the counter
is 1 after the first check of a value and still 1 after the second. -/
theorem checkType_idempotent :
    (∀ (g : Runtime) (t : TypeId) (s : State), ∃ s1,
      (∀ k, checkType g (g.budget + k) (some t) s = .done s1) ∧
      (∀ k, checkType g (g.budget + k) (some t) s1 = .done s1)) ∧
    (∃ s1, checkValue sampleT (some ⟨2, valT⟩) State.init = .done s1 ∧
      s1.errorCount = 1 ∧ s1.out = [Diag.lowerCase "name" "T"] ∧
      checkValue sampleT (some ⟨2, valT⟩) s1 = .done s1) := by
  refine ⟨?_, ?_⟩
  · intro g t s
    obtain ⟨s1, new, dn, h1, D⟩ := checkType_budget g t s
    refine ⟨s1, fun k => checkType_fuel_add g _ t s s1 h1 k, fun k => ?_⟩
    have hm : t ∈ s1.checked := D.roots_mem t (by simp)
    have : g.budget + k = (g.types.length + k) + 1 := by unfold Runtime.budget; omega
    rw [this]
    exact checkType_of_mem g _ t s1 hm
  · exact ⟨{ checked := [1, 0, 2], errorCount := 1, out := [Diag.lowerCase "name" "T"] },
      by decide, rfl, rfl, by decide⟩

/-- C2. From the initial state, `checkType` on a non-nil type of any type
table returns a state whose memo lists, each once, exactly the types
reachable from `t`; whose output is, up to order, one invisible-field line
for every flagged field of every reachable struct type (`flagged` lists the
fields whose first rune is not upper case and nothing for the others); and
whose counter is the number of those lines. Reachability follows the type of
every field, flagged or not. -/
theorem checkType_reports_flagged_fields (g : Runtime) (t : TypeId) :
    ∃ s1, (∀ k, checkType g (g.budget + k) (some t) State.init = .done s1) ∧
      s1.checked.Nodup ∧ (∀ u, u ∈ s1.checked ↔ Reach g t u) ∧
      s1.out.Perm (s1.checked.flatMap (flagged g)) ∧
      s1.errorCount = (s1.checked.flatMap (flagged g)).length := by
  obtain ⟨s1, new, dn, h1, D⟩ := checkType_budget g t State.init
  have hck : s1.checked = new := by simpa [State.init] using D.checked_eq
  have hout : s1.out = dn := by simpa [State.init] using D.out_eq
  have hperm : dn.Perm (new.flatMap (flagged g)) := by simpa using D.perm
  refine ⟨s1, fun k => checkType_fuel_add g _ t _ s1 h1 k, ?_, ?_, ?_, ?_⟩
  · rw [hck]; exact D.nodup
  · intro u
    constructor
    · intro hu
      rw [hck] at hu
      obtain ⟨c, hc, hcu⟩ := D.reach u hu
      simp only [List.mem_singleton] at hc
      subst hc
      exact hcu
    · intro hu
      have hcl : Closed g s1.checked :=
        D.closed_after g (by intro u hu; simp [State.init] at hu)
      exact hcl.reach_mem g (D.roots_mem t (by simp)) hu
  · rw [hout, hck]; exact hperm
  · rw [D.count_eq, hck, ← hperm.length_eq]; simp [State.init]

/-- C3. Termination of `checkType`: on every non-nil type of every type table,
cyclic or not, and from every state, the call returns, with the same result
for every budget from `g.budget` on. For `type Node struct { Next *Node }` it
returns with both `Node` and `*Node` in the memo. -/
theorem checkType_terminates :
    (∀ (g : Runtime) (t : TypeId) (s : State),
      ∃ s1, ∀ k, checkType g (g.budget + k) (some t) s = .done s1) ∧
    checkType sampleNode sampleNode.budget (some 0) State.init =
      .done { checked := [1, 0], errorCount := 0, out := [] } := by
  refine ⟨?_, by decide⟩
  intro g t s
  obtain ⟨s1, new, dn, h1, _⟩ := checkType_budget g t s
  exact ⟨s1, fun k => checkType_fuel_add g _ t s s1 h1 k⟩

/-! ## Properties of the Default-Value Auditor -/

theorem Outcome.bind_eq_done {α β : Type} {x : Outcome α} {f : α → Outcome β} {b : β}
    (h : x.bind f = .done b) : ∃ a, x = .done a ∧ f a = .done b := by
  cases x with
  | done a => exact ⟨a, rfl, h⟩
  | panic => cases h
  | outOfFuel => cases h

/-- The body of `checkDefaultinner` as the source has it, without the level
count of the model. -/
theorem checkDefaultinner_eq (g : Runtime) (value : Value) (ro : RO) (depth : Int)
    (name : String) (s : State) :
    checkDefaultinner g value ro depth name s =
      if depth > 3 then .done s
      else
        match value with
        | .VStruct _ fields =>
          structLoop g ro (fun vv r nm s1 => checkDefaultinner g vv r (depth + 1) nm s1)
            fields name s
        | .VPtr _ none => .done s
        | .VPtr _ (some pointee) => checkDefaultinner g pointee ro (depth + 1) name s
        | .VOther _ _ _ => .done s
        | scalar =>
          if ro.isSet then .panic
          else if scalar.nonDefault then .done (report name scalar.typeName s)
          else .done s := by
  unfold checkDefaultinner
  by_cases hd : depth > 3
  · have h0 : (4 - depth).toNat = 0 := by omega
    simp [hd, h0, checkDefaultinnerAux]
  · have h1 : (4 - depth).toNat = (4 - (depth + 1)).toNat + 1 := by omega
    rw [h1]
    cases value with
    | VPtr tn elem => cases elem <;> simp only [checkDefaultinnerAux, hd, if_false]
    | _ => simp only [checkDefaultinnerAux, hd, if_false]

/-- Anything that the recursive call preserves is preserved by the field
loop, when it returns. -/
theorem structLoop_preserves (g : Runtime) (ro : RO) (P : State → Prop)
    (rec : Value → RO → String → State → Outcome State)
    (h : ∀ vv r nm s s1, P s → rec vv r nm s = .done s1 → P s1) :
    ∀ (fs : List (FieldDesc × Value)) (nm : String) (s s1 : State),
      P s → structLoop g ro rec fs nm s = .done s1 → P s1 := by
  intro fs
  induction fs with
  | nil =>
    intro nm s s1 hs hr
    simp only [structLoop, Outcome.done.injEq] at hr
    exact hr ▸ hs
  | cons p rest ih =>
    obtain ⟨f, vv⟩ := p
    intro nm s s1 hs hr
    simp only [structLoop] at hr
    obtain ⟨s2, h2, hrest⟩ := Outcome.bind_eq_done hr
    exact ih _ s2 s1 (h _ _ _ _ _ hs h2) hrest

/-- Anything that `report` preserves is preserved by the auditor, when it
returns. -/
theorem checkDefaultinnerAux_preserves (g : Runtime) (P : State → Prop)
    (hrep : ∀ name tn s, P s → P (report name tn s)) :
    ∀ (levels : Nat) (v : Value) (ro : RO) (d : Int) (nm : String) (s s1 : State),
      P s → checkDefaultinnerAux g levels v ro d nm s = .done s1 → P s1 := by
  intro levels
  induction levels with
  | zero =>
    intro v ro d nm s s1 hs hr
    simp only [checkDefaultinnerAux, Outcome.done.injEq] at hr
    exact hr ▸ hs
  | succ levels ih =>
    intro v ro d nm s s1 hs hr
    by_cases hd : d > 3
    · simp only [checkDefaultinnerAux, hd, if_true, Outcome.done.injEq] at hr
      exact hr ▸ hs
    · cases v with
      | VStruct tn fields =>
        simp only [checkDefaultinnerAux, hd, if_false] at hr
        exact structLoop_preserves g ro P _
          (fun vv r nm1 s2 s3 h2 h3 => ih vv r _ nm1 s2 s3 h2 h3) fields nm s s1 hs hr
      | VPtr tn elem =>
        simp only [checkDefaultinnerAux, hd, if_false] at hr
        cases elem with
        | none =>
          simp only [Outcome.done.injEq] at hr
          exact hr ▸ hs
        | some e => exact ih e ro _ nm s s1 hs hr
      | VOther k tn cs =>
        simp only [checkDefaultinnerAux, hd, if_false, Outcome.done.injEq] at hr
        exact hr ▸ hs
      | _ =>
        simp only [checkDefaultinnerAux, hd, if_false] at hr
        split at hr
        · cases hr
        · split at hr
          · simp only [Outcome.done.injEq] at hr
            exact hr ▸ hrep _ _ _ hs
          · simp only [Outcome.done.injEq] at hr
            exact hr ▸ hs

theorem checkDefault_preserves (g : Runtime) (P : State → Prop)
    (hrep : ∀ name tn s, P s → P (report name tn s)) (value : Interface) (s s1 : State)
    (hs : P s) (hr : checkDefault g value s = .done s1) : P s1 := by
  cases value with
  | none =>
    simp only [checkDefault, Outcome.done.injEq] at hr
    exact hr ▸ hs
  | some iv => exact checkDefaultinnerAux_preserves g P hrep _ _ _ _ _ _ _ hs hr

theorem report_checked (name tn : String) (s : State) :
    (report name tn s).checked = s.checked := by
  unfold report; split <;> rfl

theorem report_errorCount (name tn : String) (s : State) :
    (report name tn s).errorCount = s.errorCount + 1 := by
  unfold report; split <;> rfl

/-- The auditor never touches the memo. -/
theorem checkDefault_checked (g : Runtime) (value : Interface) (s s1 : State)
    (hr : checkDefault g value s = .done s1) : s1.checked = s.checked :=
  checkDefault_preserves g (fun s2 => s2.checked = s.checked)
    (fun name tn s2 h => (report_checked name tn s2).trans h) value s s1 rfl hr

theorem structLoop_errorCount (g : Runtime) (ro : RO)
    (rec : Value → RO → String → State → Outcome State) (f : Value → Nat)
    (h : ∀ vv r nm s s1, rec vv r nm s = .done s1 → s1.errorCount = s.errorCount + f vv) :
    ∀ (fs : List (FieldDesc × Value)) (nm : String) (s s1 : State),
      structLoop g ro rec fs nm s = .done s1 →
      s1.errorCount = s.errorCount + (fs.map fun p => f p.2).sum := by
  intro fs
  induction fs with
  | nil =>
    intro nm s s1 hr
    simp only [structLoop, Outcome.done.injEq] at hr
    subst hr
    simp
  | cons p rest ih =>
    obtain ⟨fd, vv⟩ := p
    intro nm s s1 hr
    simp only [structLoop] at hr
    obtain ⟨s2, h2, hrest⟩ := Outcome.bind_eq_done hr
    simp only [List.map_cons, List.sum_cons]
    rw [ih _ s2 s1 hrest, h _ _ _ _ _ h2]
    omega

/-- When the auditor returns, it has counted exactly the non-default leaves
within its levels. -/
theorem checkDefaultinnerAux_errorCount (g : Runtime) :
    ∀ (levels : Nat) (v : Value) (ro : RO) (d : Int) (nm : String) (s s1 : State),
      levels = (4 - d).toNat → checkDefaultinnerAux g levels v ro d nm s = .done s1 →
      s1.errorCount = s.errorCount + nonDefaultLeaves levels v := by
  intro levels
  induction levels with
  | zero =>
    intro v ro d nm s s1 _ hr
    simp only [checkDefaultinnerAux, Outcome.done.injEq] at hr
    subst hr
    simp [nonDefaultLeaves]
  | succ levels ih =>
    intro v ro d nm s s1 hl hr
    have hd : ¬ d > 3 := by omega
    have hl1 : levels = (4 - (d + 1)).toNat := by omega
    cases v with
    | VStruct tn fields =>
      simp only [checkDefaultinnerAux, hd, if_false] at hr
      simp only [nonDefaultLeaves]
      exact structLoop_errorCount g ro _ (nonDefaultLeaves levels)
        (fun vv r nm1 s2 s3 h3 => ih vv r (d + 1) nm1 s2 s3 hl1 h3) fields nm s s1 hr
    | VPtr tn elem =>
      cases elem with
      | none =>
        simp only [checkDefaultinnerAux, hd, if_false, Outcome.done.injEq] at hr
        subst hr
        simp [nonDefaultLeaves]
      | some e =>
        simp only [checkDefaultinnerAux, hd, if_false] at hr
        simp only [nonDefaultLeaves]
        exact ih e ro (d + 1) nm s s1 hl1 hr
    | VOther k tn cs =>
      simp only [checkDefaultinnerAux, hd, if_false, Outcome.done.injEq] at hr
      subst hr
      simp [nonDefaultLeaves]
    | _ =>
      simp only [checkDefaultinnerAux, hd, if_false] at hr
      simp only [nonDefaultLeaves]
      split at hr
      · cases hr
      · split at hr
        · simp only [Outcome.done.injEq] at hr
          subst hr
          rw [report_errorCount]
          simp [*]
        · simp only [Outcome.done.injEq] at hr
          subst hr
          simp [*]

/-! ## Properties of the gates -/

theorem flagged_isLowerCase (g : Runtime) (t : TypeId) :
    ∀ d ∈ flagged g t, Diag.isLowerCase d = true := by
  intro d hd
  unfold flagged at hd
  split at hd
  · simp only [List.mem_map] at hd
    obtain ⟨f, _, rfl⟩ := hd
    rfl
  · cases hd

/-- Every line `checkType` prints is an invisible-field line. -/
theorem Delta.lines_lowerCase (g : Runtime) {roots : List TypeId} {s s1 : State}
    {new : List TypeId} {dn : List Diag} (D : Delta g roots [] s s1 new dn) :
    ∀ d ∈ dn, Diag.isLowerCase d = true := by
  intro d hd
  have := D.perm.subset hd
  simp only [List.append_nil, List.mem_flatMap] at this
  obtain ⟨u, _, hu⟩ := this
  exact flagged_isLowerCase g u d hu

theorem filter_lowerCase_eq {dn : List Diag} (h : ∀ d ∈ dn, Diag.isLowerCase d = true) :
    dn.filter Diag.isLowerCase = dn :=
  List.filter_eq_self.2 h

theorem report_lowerCase (name tn : String) (s : State) :
    (report name tn s).out.filter Diag.isLowerCase = s.out.filter Diag.isLowerCase := by
  unfold report
  split <;> simp [List.filter_append, Diag.isLowerCase]

/-- The auditor prints no invisible-field line. -/
theorem checkDefault_lowerCase (g : Runtime) (value : Interface) (s s1 : State)
    (hr : checkDefault g value s = .done s1) :
    s1.out.filter Diag.isLowerCase = s.out.filter Diag.isLowerCase :=
  checkDefault_preserves g
    (fun s2 => s2.out.filter Diag.isLowerCase = s.out.filter Diag.isLowerCase)
    (fun name tn s2 h => (report_lowerCase name tn s2).trans h) value s s1 rfl hr

/-- When the audit returns, the counter has grown by the number of
non-default leaves within three levels of the value. -/
theorem checkDefault_errorCount (g : Runtime) (value : Interface) (s s1 : State)
    (hr : checkDefault g value s = .done s1) :
    s1.errorCount =
      s.errorCount + (match value with
        | none => 0
        | some iv => nonDefaultLeaves 3 iv.val) := by
  cases value with
  | none =>
    simp only [checkDefault, Outcome.done.injEq] at hr
    subst hr
    rfl
  | some iv => exact checkDefaultinnerAux_errorCount g 3 iv.val RO.clear 1 "" s s1 rfl hr

theorem report_firstLineOnly (name tn : String) (s : State) (h : FirstLineOnly s) :
    FirstLineOnly (report name tn s) := by
  obtain ⟨h1, h2⟩ := h
  unfold report
  by_cases hc : s.errorCount < 1
  · have h0 : s.errorCount = 0 := by omega
    have ho : s.out = [] := h1.2 h0
    simp [FirstLineOnly, hc, ho]
  · have hne : s.out ≠ [] := fun ho => hc (by rw [h1.1 ho]; decide)
    simp only [hc, if_false]
    exact ⟨by simp [hne], h2⟩

theorem checkDefault_firstLineOnly (g : Runtime) (value : Interface) (s s1 : State)
    (h : FirstLineOnly s) (hr : checkDefault g value s = .done s1) : FirstLineOnly s1 :=
  checkDefault_preserves g FirstLineOnly report_firstLineOnly value s s1 h hr

theorem checkType_firstLineOnly (g : Runtime) (t : TypeId) (s s1 : State)
    (h : FirstLineOnly s) (hr : checkType g g.budget (some t) s = .done s1) :
    FirstLineOnly s1 := by
  obtain ⟨s2, new, dn, h2, D⟩ := checkType_budget g t s
  rw [hr] at h2
  cases h2
  obtain ⟨h1, h3⟩ := h
  have hlc := D.lines_lowerCase g
  constructor
  · rw [D.out_eq, D.count_eq]
    constructor
    · intro ho
      have := List.append_eq_nil.1 ho
      rw [h1.1 this.1, this.2]; rfl
    · intro hc
      have hs0 : s.errorCount = 0 := by omega
      have hd0 : dn = [] := List.length_eq_zero.1 (by omega)
      rw [h1.2 hs0, hd0]; rfl
  · intro d hd
    rw [D.out_eq] at hd
    cases hso : s.out with
    | nil =>
      rw [hso] at hd
      exact hlc d (List.mem_of_mem_tail hd)
    | cons x xs =>
      rw [hso] at hd h3
      simp only [List.cons_append, List.tail_cons, List.mem_append] at hd h3
      rcases hd with hd | hd
      · exact h3 d hd
      · exact hlc d hd

theorem checkType_oncePerType (g : Runtime) (t : TypeId) (s s1 : State)
    (h : OncePerType g s) (hr : checkType g g.budget (some t) s = .done s1) :
    OncePerType g s1 := by
  obtain ⟨s2, new, dn, h2, D⟩ := checkType_budget g t s
  rw [hr] at h2
  cases h2
  obtain ⟨h1, h3⟩ := h
  constructor
  · rw [D.checked_eq, List.nodup_append]
    exact ⟨D.nodup, h1, fun u hu hm => D.fresh u hu hm⟩
  · rw [D.out_eq, D.checked_eq, List.filter_append, List.flatMap_append,
      filter_lowerCase_eq (D.lines_lowerCase g)]
    have hp : dn.Perm (new.flatMap (flagged g)) := by simpa using D.perm
    exact (List.perm_append_comm).trans (hp.append h3)

theorem checkDefault_oncePerType (g : Runtime) (value : Interface) (s s1 : State)
    (h : OncePerType g s) (hr : checkDefault g value s = .done s1) : OncePerType g s1 := by
  unfold OncePerType
  rw [checkDefault_checked g value s s1 hr, checkDefault_lowerCase g value s s1 hr]
  exact h

/-- A gate whose type check was followed by more work returned only if its
argument was non-nil and the type check returned. -/
theorem checkValue_bind_done {α : Type} (g : Runtime) (v : Interface) (s : State)
    (f : State → Outcome α) (r : α) (h : (checkValue g v s).bind f = .done r) :
    ∃ iv s2, v = some iv ∧ checkType g g.budget (some iv.typ) s = .done s2 ∧ f s2 = .done r := by
  cases v with
  | none => cases h
  | some iv =>
    simp only [checkValue, TypeOf, Option.map] at h
    cases hc : checkType g g.budget (some iv.typ) s with
    | done s2 =>
      rw [hc] at h
      exact ⟨iv, s2, rfl, hc, h⟩
    | panic => rw [hc] at h; cases h
    | outOfFuel => rw [hc] at h; cases h

/-- What a completed operation did to the diagnostic state: one type check,
followed by an audit that returned when the operation is a `Decode`. -/
theorem Op.run_done {σ ρ : Type} (gob : Gob σ ρ) (g : Runtime) (op : Op) (s s1 : State)
    (c c1 : σ) (h : op.run gob g (s, c) = .done (s1, c1)) :
    ∃ t s2, checkType g g.budget (some t) s = .done s2 ∧
      ((s1 = s2 ∧ auditedLeaves [op] = 0) ∨
        ∃ iv, op = .Decode (some iv) ∧ checkDefault g (some iv) s2 = .done s1) := by
  cases op with
  | Encode v =>
    simp only [Op.run, Labgob.Encode, Outcome.bind_assoc] at h
    obtain ⟨iv, s2, _, hc, hf⟩ := checkValue_bind_done g v s _ _ h
    simp only [Outcome.bind_done, Outcome.done.injEq, Prod.mk.injEq] at hf
    exact ⟨iv.typ, s2, hc, Or.inl ⟨hf.1.symm, rfl⟩⟩
  | EncodeValue value =>
    simp only [Op.run, Labgob.EncodeValue, Outcome.bind_assoc] at h
    cases hv : value.Interface with
    | done v =>
      rw [hv, Outcome.bind_done] at h
      obtain ⟨iv, s2, _, hc, hf⟩ := checkValue_bind_done g v s _ _ h
      simp only [Outcome.bind_done, Outcome.done.injEq, Prod.mk.injEq] at hf
      exact ⟨iv.typ, s2, hc, Or.inl ⟨hf.1.symm, rfl⟩⟩
    | panic => rw [hv] at h; cases h
    | outOfFuel => rw [hv] at h; cases h
  | Decode v =>
    simp only [Op.run, Labgob.Decode, Outcome.bind_assoc] at h
    obtain ⟨iv, s2, hv, hc, hf⟩ := checkValue_bind_done g v s _ _ h
    subst hv
    obtain ⟨s3, h3, hf3⟩ := Outcome.bind_eq_done hf
    simp only [Outcome.bind_done, Outcome.done.injEq, Prod.mk.injEq] at hf3
    exact ⟨iv.typ, s2, hc, Or.inr ⟨iv, rfl, hf3.1 ▸ h3⟩⟩
  | Register v =>
    simp only [Op.run, Labgob.Register, Outcome.bind_assoc] at h
    obtain ⟨iv, s2, _, hc, hf⟩ := checkValue_bind_done g v s _ _ h
    simp only [Outcome.bind_done, Outcome.done.injEq, Prod.mk.injEq] at hf
    exact ⟨iv.typ, s2, hc, Or.inl ⟨hf.1.symm, rfl⟩⟩
  | RegisterName name v =>
    simp only [Op.run, Labgob.RegisterName, Outcome.bind_assoc] at h
    obtain ⟨iv, s2, _, hc, hf⟩ := checkValue_bind_done g v s _ _ h
    simp only [Outcome.bind_done, Outcome.done.injEq, Prod.mk.injEq] at hf
    exact ⟨iv.typ, s2, hc, Or.inl ⟨hf.1.symm, rfl⟩⟩

theorem auditedLeaves_cons (op : Op) (rest : List Op) :
    auditedLeaves (op :: rest) = auditedLeaves [op] + auditedLeaves rest := by
  cases op with
  | Decode v => cases v <;> simp [auditedLeaves]
  | _ => simp [auditedLeaves]

/-- A property of the diagnostic state that every returning type check and
every returning audit preserve is preserved by every sequence of operations
that returns. -/
theorem runOps_preserves {σ ρ : Type} (gob : Gob σ ρ) (g : Runtime) (P : State → Prop)
    (hT : ∀ t s s1, P s → checkType g g.budget (some t) s = .done s1 → P s1)
    (hD : ∀ v s s1, P s → checkDefault g v s = .done s1 → P s1) :
    ∀ (ops : List Op) (s : State) (c : σ) (s1 : State) (c1 : σ),
      P s → runOps gob g ops (s, c) = .done (s1, c1) → P s1 := by
  intro ops
  induction ops with
  | nil =>
    intro s c s1 c1 hs h
    simp only [runOps, Outcome.done.injEq, Prod.mk.injEq] at h
    rw [← h.1]; exact hs
  | cons op rest ih =>
    intro s c s1 c1 hs h
    simp only [runOps] at h
    cases ho : op.run gob g (s, c) with
    | done sc =>
      obtain ⟨s2, c2⟩ := sc
      rw [ho, Outcome.bind_done] at h
      obtain ⟨t, s3, h3, hcase⟩ := Op.run_done gob g op s s2 c c2 ho
      have hs3 : P s3 := hT t s s3 hs h3
      have hs2 : P s2 := by
        rcases hcase with ⟨rfl, _⟩ | ⟨iv, _, hd⟩
        · exact hs3
        · exact hD _ _ _ hs3 hd
      exact ih s2 c2 s1 c1 hs2 h
    | panic => rw [ho] at h; cases h
    | outOfFuel => rw [ho] at h; cases h

/-- The counter after a sequence of operations that returns: it grew by the
number of invisible-field lines printed plus the number of non-default leaves
audited. -/
theorem runOps_errorCount {σ ρ : Type} (gob : Gob σ ρ) (g : Runtime) :
    ∀ (ops : List Op) (s : State) (c : σ) (s1 : State) (c1 : σ),
      runOps gob g ops (s, c) = .done (s1, c1) →
      s1.errorCount + (s.out.filter Diag.isLowerCase).length =
        s.errorCount + (s1.out.filter Diag.isLowerCase).length + auditedLeaves ops := by
  intro ops
  induction ops with
  | nil =>
    intro s c s1 c1 h
    simp only [runOps, Outcome.done.injEq, Prod.mk.injEq] at h
    rw [← h.1]; simp [auditedLeaves]
  | cons op rest ih =>
    intro s c s1 c1 h
    simp only [runOps] at h
    cases ho : op.run gob g (s, c) with
    | done sc =>
      obtain ⟨s2, c2⟩ := sc
      rw [ho, Outcome.bind_done] at h
      obtain ⟨t, s3, h3, hcase⟩ := Op.run_done gob g op s s2 c c2 ho
      obtain ⟨s4, new, dn, h4, D⟩ := checkType_budget g t s
      rw [h3] at h4
      cases h4
      have e3 : s3.errorCount + (s.out.filter Diag.isLowerCase).length =
          s.errorCount + (s3.out.filter Diag.isLowerCase).length := by
        rw [D.count_eq, D.out_eq, List.filter_append, filter_lowerCase_eq (D.lines_lowerCase g),
          List.length_append]
        omega
      have e2 : s2.errorCount + (s.out.filter Diag.isLowerCase).length =
          s.errorCount + (s2.out.filter Diag.isLowerCase).length + auditedLeaves [op] := by
        rcases hcase with ⟨rfl, h0⟩ | ⟨iv, rfl, hd⟩
        · rw [h0]; exact e3
        · rw [checkDefault_errorCount g _ s3 s2 hd, checkDefault_lowerCase g _ s3 s2 hd]
          simp only [auditedLeaves]
          omega
      have := ih s2 c2 s1 c1 h
      rw [auditedLeaves_cons]
      omega
    | panic => rw [ho] at h; cases h
    | outOfFuel => rw [ho] at h; cases h

theorem oncePerType_init (g : Runtime) : OncePerType g State.init := by
  simp [OncePerType, State.init]

theorem firstLineOnly_init : FirstLineOnly State.init := by
  simp [FirstLineOnly, State.init]

/-- C4. Each type is dispatched at most once. The memo list gains an entry
exactly when `checkType` goes on to the kind dispatch of a type, so a memo
without repetition says that no type was dispatched twice. After every
sequence of `checkType` calls from the initial state (which always returns),
and after every sequence of gate operations from the initial state that
returns, the memo has no repetition and the invisible-field lines printed
are, up to order, the lines of the entered types, each type contributing the
line of each of its flagged fields once. -/
theorem each_type_dispatched_once :
    (∀ (g : Runtime) (ts : List TypeId), ∃ s1, checkTypes g ts State.init = .done s1 ∧
      s1.checked.Nodup ∧ s1.out.Perm (s1.checked.flatMap (flagged g)) ∧
      s1.errorCount = s1.out.length) ∧
    (∀ (σ ρ : Type) (gob : Gob σ ρ) (g : Runtime) (ops : List Op) (c : σ) (s1 : State) (c1 : σ),
      runOps gob g ops (State.init, c) = .done (s1, c1) →
      s1.checked.Nodup ∧
      (s1.out.filter Diag.isLowerCase).Perm (s1.checked.flatMap (flagged g))) := by
  refine ⟨?_, ?_⟩
  · intro g ts
    suffices hgen : ∀ (ts : List TypeId) (s : State),
        s.checked.Nodup → s.out.Perm (s.checked.flatMap (flagged g)) →
        s.errorCount = s.out.length →
        ∃ s1, checkTypes g ts s = .done s1 ∧ s1.checked.Nodup ∧
          s1.out.Perm (s1.checked.flatMap (flagged g)) ∧ s1.errorCount = s1.out.length from
      hgen ts State.init (by simp [State.init]) (by simp [State.init]) rfl
    intro ts
    induction ts with
    | nil => intro s h1 h2 h3; exact ⟨s, rfl, h1, h2, h3⟩
    | cons t rest ih =>
      intro s h1 h2 h3
      obtain ⟨s2, new, dn, hr, D⟩ := checkType_budget g t s
      have hp : dn.Perm (new.flatMap (flagged g)) := by simpa using D.perm
      obtain ⟨s1, hs1, r1, r2, r3⟩ := ih s2
        (by rw [D.checked_eq, List.nodup_append]
            exact ⟨D.nodup, h1, fun u hu hm => D.fresh u hu hm⟩)
        (by rw [D.out_eq, D.checked_eq, List.flatMap_append]
            exact (List.perm_append_comm).trans (hp.append h2))
        (by rw [D.count_eq, D.out_eq, List.length_append, h3])
      exact ⟨s1, by simp only [checkTypes, hr, Outcome.bind_done, hs1], r1, r2, r3⟩
  · intro σ ρ gob g ops c s1 c1 h
    exact runOps_preserves gob g (OncePerType g)
      (fun t s s2 hs hr => checkType_oncePerType g t s s2 hs hr)
      (fun v s s2 hs hr => checkDefault_oncePerType g v s s2 hs hr)
      ops State.init c s1 c1 (oncePerType_init g) h

/-- Witness of C4: encoding a `T` twice enters `T` once and prints its line once. -/
theorem each_type_dispatched_once_witness :
    runOps idleGob sampleT [Op.Encode (some ⟨2, valT⟩), Op.Encode (some ⟨2, valT⟩)]
        (State.init, ()) =
      .done ({ checked := [1, 0, 2], errorCount := 1, out := [Diag.lowerCase "name" "T"] }, ()) ∧
    ([1, 0, 2] : List TypeId).Nodup ∧
    (([Diag.lowerCase "name" "T"] : List Diag).filter Diag.isLowerCase).Perm
      (([1, 0, 2] : List TypeId).flatMap (flagged sampleT)) :=
  ⟨by decide,
    each_type_dispatched_once.2 Unit Unit idleGob sampleT
      [Op.Encode (some ⟨2, valT⟩), Op.Encode (some ⟨2, valT⟩)] ()
      { checked := [1, 0, 2], errorCount := 1, out := [Diag.lowerCase "name" "T"] } ()
      (by decide)⟩

/-- C5 does not hold of the code: line 149 calls `value.Interface()` before it
compares, and `reflect` panics on a value obtained through an unexported
field. The audit of `T{ID: 0, name: ""}`, whose leaves are all zero, panics
instead of leaving the counter as it is, and so does the audit of
`T{ID: 7, name: ""}`, for which the claim gives a counter grown by 1. With
exported fields only, as in `&S{A: 7, B: 0}`, the audit returns and the
counter grows by 1; so it does for the exported field `X` of an embedded
struct of the unexported type `inner`, since `reflect` does not pass the mark
of an embedded field on to the fields below it. -/
theorem audit_panics_on_unexported_field :
    checkDefault sampleT (some ⟨2, valTOf 0 ""⟩) State.init = .panic ∧
    checkDefault sampleT (some ⟨2, valT⟩) State.init = .panic ∧
    nonDefaultLeaves 3 (valTOf 0 "") = 0 ∧ nonDefaultLeaves 3 valT = 1 ∧
    checkDefault sampleS (some ⟨2, ptrSOf 7 0⟩) State.init =
      .done { checked := [], errorCount := 1, out := [Diag.nonDefault ".A"] } ∧
    checkDefault sampleS
        (some ⟨1, .VStruct "E" [(embedded "inner",
          .VStruct "inner" [(fld "X", .VInt .Int "int" 5)])]⟩) State.init =
      .done { checked := [], errorCount := 1, out := [Diag.nonDefault ".inner.X"] } ∧
    checkDefault sampleS
        (some ⟨1, .VStruct "E" [(fld "in",
          .VStruct "inner" [(fld "X", .VInt .Int "int" 5)])]⟩) State.init = .panic := by
  decide

/-- C6 fails as stated: decoding into `&U{X: 1}` (`type U struct { X int; m []int }`)
in a fresh process meets one non-default leaf, the first of the process, and
prints no non-default line for it, because the invisible-field line of `m`
was counted before; the counter is 2 at the end. -/
theorem first_nonDefault_leaf_not_printed :
    runOps idleGob sampleU [Op.Decode (some ⟨3, ptrU 1⟩)] (State.init, ()) =
      .done ({ checked := [1, 0, 2, 3], errorCount := 2,
               out := [Diag.lowerCase "m" "U"] }, ()) ∧
    auditedLeaves [Op.Decode (some ⟨3, ptrU 1⟩)] = 1 := by
  decide

/-- C6 as amended. A non-default scalar leaf that the auditor reports always
adds one to the counter, and its line is printed exactly when the counter is
zero at that moment. So in every sequence of gate operations from the
initial state that returns, a non-default line can only be the first line of
the whole output (every later line is an invisible-field line), nothing has
been printed exactly as long as the counter is zero, and the counter is the
number of invisible-field lines printed plus the number of non-default leaves
the auditor met. -/
theorem nonDefault_line_only_first :
    (∀ (name typeName : String) (s : State),
      (report name typeName s).errorCount = s.errorCount + 1 ∧
      (report name typeName s).checked = s.checked ∧
      (report name typeName s).out =
        if s.errorCount = 0 then
          s.out ++ [Diag.nonDefault (if name == "" then typeName else name)]
        else s.out) ∧
    (∀ (σ ρ : Type) (gob : Gob σ ρ) (g : Runtime) (ops : List Op) (c : σ) (s1 : State) (c1 : σ),
      runOps gob g ops (State.init, c) = .done (s1, c1) →
      (s1.out = [] ↔ s1.errorCount = 0) ∧
      (∀ d ∈ s1.out.tail, Diag.isLowerCase d = true) ∧
      s1.errorCount = (s1.out.filter Diag.isLowerCase).length + auditedLeaves ops) := by
  refine ⟨?_, ?_⟩
  · intro name typeName s
    refine ⟨report_errorCount name typeName s, report_checked name typeName s, ?_⟩
    unfold report
    by_cases h : s.errorCount = 0
    · simp [h]
    · have : ¬ s.errorCount < 1 := by omega
      simp [h, this]
  · intro σ ρ gob g ops c s1 c1 h
    have hinv : FirstLineOnly s1 :=
      runOps_preserves gob g FirstLineOnly
        (fun t s s2 hs hr => checkType_firstLineOnly g t s s2 hs hr)
        (fun v s s2 hs hr => checkDefault_firstLineOnly g v s s2 hs hr)
        ops State.init c s1 c1 firstLineOnly_init h
    have hcount := runOps_errorCount gob g ops State.init c s1 c1 h
    simp only [State.init, List.filter_nil, List.length_nil, Nat.add_zero, Nat.zero_add] at hcount
    exact ⟨hinv.1, hinv.2, hcount⟩

/-- Witness of the amended C6: a decode into `&U{X: 1}` in a fresh process. -/
theorem nonDefault_line_only_first_witness :
    runOps idleGob sampleU [Op.Decode (some ⟨3, ptrU 1⟩)] (State.init, ()) =
      .done ({ checked := [1, 0, 2, 3], errorCount := 2,
               out := [Diag.lowerCase "m" "U"] }, ()) ∧
    (([Diag.lowerCase "m" "U"] : List Diag) = [] ↔ (2 : Nat) = 0) ∧
    (∀ d ∈ ([Diag.lowerCase "m" "U"] : List Diag).tail, Diag.isLowerCase d = true) ∧
    (2 : Nat) = (([Diag.lowerCase "m" "U"] : List Diag).filter Diag.isLowerCase).length +
      auditedLeaves [Op.Decode (some ⟨3, ptrU 1⟩)] :=
  ⟨by decide,
    nonDefault_line_only_first.2 Unit Unit idleGob sampleU [Op.Decode (some ⟨3, ptrU 1⟩)] ()
      { checked := [1, 0, 2, 3], errorCount := 2, out := [Diag.lowerCase "m" "U"] } ()
      (by decide)⟩

theorem report_of_zero (name typeName : String) (s : State) (h : s.errorCount = 0) :
    report name typeName s =
      { s with out := s.out ++ [Diag.nonDefault (if name == "" then typeName else name)],
               errorCount := 1 } := by
  unfold report
  simp [h]

/-- A non-default scalar audited above the cutoff, with no read-only bit set,
is reported. -/
theorem checkDefaultinner_scalar (g : Runtime) (v : Value) (ro : RO) (d : Int) (path : String)
    (s : State) (hd : ¬ d > 3) (hro : ro.isSet = false) (hv : v.nonDefault = true) :
    checkDefaultinner g v ro d path s = .done (report path v.typeName s) := by
  rw [checkDefaultinner_eq]
  cases v with
  | VStruct tn fields => simp [Value.nonDefault] at hv
  | VPtr tn elem => simp [Value.nonDefault] at hv
  | VOther k tn cs => simp [Value.nonDefault] at hv
  | _ => simp only [hd, if_false, hv, if_true, hro, Bool.false_eq_true]

theorem RO.ofField_exported (g : Runtime) (f : FieldDesc) (h : exportedName g f.Name = true) :
    (RO.clear.ofField g f).isSet = false := by
  simp [RO.ofField, h, RO.isSet, RO.clear]

theorem dot_append_ne_empty (n : String) : (("." ++ n) == "") = false := by
  rw [beq_eq_false_iff_ne]
  intro h
  have := congrArg String.length h
  simp only [String.length_append] at this
  have h1 : ".".length = 1 := by decide
  have h0 : "".length = 0 := by decide
  omega

/-- C7. Depth cutoff of the auditor. Called with a depth above 3,
`checkDefaultinner` returns the state unchanged, whatever the value, its
read-only bits and the path; so a scalar four levels below the audited root
(`nested v`) leaves the state unchanged, whatever it holds. A non-default
scalar at depth 2, audited with the counter at zero, prints exactly one line
and sets the counter to 1 as the pointee of a root pointer and as a field of
a root struct when the field is exported. That half of C7 does not hold of
the code for an unexported field: the audit of `P{x: 7}`
(`type P struct { x int }`) panics at line 149 and reports nothing. -/
theorem checkDefaultinner_depth_cutoff :
    (∀ (g : Runtime) (v : Value) (ro : RO) (d : Int) (path : String) (s : State), d > 3 →
      checkDefaultinner g v ro d path s = .done s) ∧
    (∀ (g : Runtime) (t : TypeId) (v : Value) (s : State),
      checkDefault g (some ⟨t, nested v⟩) s = .done s) ∧
    (∀ (g : Runtime) (v : Value) (ro : RO) (path : String) (s : State),
      ro.isSet = false → v.nonDefault = true → s.errorCount = 0 →
      checkDefaultinner g v ro 2 path s =
        .done { s with
          out := s.out ++ [Diag.nonDefault (if path == "" then v.typeName else path)],
          errorCount := 1 }) ∧
    (∀ (g : Runtime) (t : TypeId) (tn : String) (f : FieldDesc) (v : Value) (s : State),
      exportedName g f.Name = true → v.nonDefault = true → s.errorCount = 0 →
      checkDefault g (some ⟨t, .VStruct tn [(f, v)]⟩) s =
        .done { s with
          out := s.out ++ [Diag.nonDefault (if f.Name = "" then v.typeName else "." ++ f.Name)],
          errorCount := 1 }) ∧
    (∀ (g : Runtime) (t : TypeId) (tn : String) (v : Value) (s : State),
      v.nonDefault = true → s.errorCount = 0 →
      checkDefault g (some ⟨t, .VPtr tn (some v)⟩) s =
        .done { s with out := s.out ++ [Diag.nonDefault v.typeName], errorCount := 1 }) ∧
    checkDefault sampleS (some ⟨1, .VStruct "P" [(fld "x", .VInt .Int "int" 7)]⟩) State.init =
      .panic := by
  refine ⟨?_, ?_, ?_, ?_, ?_, by decide⟩
  · intro g v ro d path s hd
    rw [checkDefaultinner_eq]
    simp [hd]
  · intro g t v s
    simp only [checkDefault, nested, checkDefaultinner]
    simp [checkDefaultinnerAux, structLoop, Outcome.bind]
  · intro g v ro path s hro hv hs
    rw [checkDefaultinner_scalar g v ro 2 path s (by decide) hro hv, report_of_zero _ _ _ hs]
  · intro g t tn f v s hf hv hs
    simp only [checkDefault]
    rw [checkDefaultinner_eq]
    simp only [show ¬ ((1 : Int) > 3) by decide, if_false, structLoop]
    rw [show ((1 : Int) + 1) = 2 by rfl,
      checkDefaultinner_scalar g v _ 2 _ s (by decide) (RO.ofField_exported g f hf) hv,
      report_of_zero _ _ _ hs, Outcome.bind_done]
    by_cases hn : f.Name = ""
    · simp [hn]
    · have hp : "" ++ "." ++ f.Name = "." ++ f.Name := by simp
      simp only [bne_iff_ne, ne_eq, hn, not_false_eq_true, if_true, if_false, hp,
        dot_append_ne_empty]
      rfl
  · intro g t tn v s hv hs
    simp only [checkDefault]
    rw [checkDefaultinner_eq]
    simp only [show ¬ ((1 : Int) > 3) by decide, if_false]
    rw [show ((1 : Int) + 1) = 2 by rfl,
      checkDefaultinner_scalar g v RO.clear 2 "" s (by decide) rfl hv, report_of_zero _ _ _ hs]
    rfl

/-- Witness of C7: an `int` holding 7 is ignored at depth 4 and reported at
depth 2, in the exported field `X` of a struct and behind a pointer. -/
theorem checkDefaultinner_depth_cutoff_witness :
    checkDefaultinner sampleS (.VInt .Int "int" 7) RO.clear 4 ".X" State.init =
      .done State.init ∧
    checkDefaultinner sampleS (.VInt .Int "int" 7) RO.clear 2 ".X" State.init =
      .done { checked := [], errorCount := 1, out := [Diag.nonDefault ".X"] } ∧
    checkDefault sampleS (some ⟨1, .VStruct "S" [(fld "X", .VInt .Int "int" 7)]⟩) State.init =
      .done { checked := [], errorCount := 1, out := [Diag.nonDefault ".X"] } ∧
    checkDefault sampleS (some ⟨1, .VPtr "" (some (.VInt .Int "int" 7))⟩) State.init =
      .done { checked := [], errorCount := 1, out := [Diag.nonDefault "int"] } :=
  ⟨checkDefaultinner_depth_cutoff.1 sampleS _ _ 4 _ _ (by decide),
    checkDefaultinner_depth_cutoff.2.2.1 sampleS (.VInt .Int "int" 7) RO.clear ".X" State.init
      rfl rfl rfl,
    checkDefaultinner_depth_cutoff.2.2.2.1 sampleS 1 "S" (fld "X") (.VInt .Int "int" 7)
      State.init (by decide) rfl rfl,
    checkDefaultinner_depth_cutoff.2.2.2.2.1 sampleS 1 "" (.VInt .Int "int" 7) State.init
      rfl rfl⟩

/-- C8 does not hold of the code: line 131 assigns the extended path to the
parameter `name`, so the path of a field keeps the names of the fields before
it. Decoding into `&S{A: 0, B: 1}` in a fresh process reports the field `B`
under the path `.A.B`; the path the claim gives is `.B`. -/
theorem field_path_keeps_siblings :
    runOps idleGob sampleS [Op.Decode (some ⟨2, ptrS⟩)] (State.init, ()) =
      .done ({ checked := [0, 1, 2], errorCount := 1, out := [Diag.nonDefault ".A.B"] }, ()) ∧
    checkDefaultinner sampleS
        (.VStruct "S" [(fld "A", .VInt .Int "int" 0), (fld "B", .VInt .Int "int" 1)])
        RO.clear 2 "" State.init =
      .done { checked := [], errorCount := 1, out := [Diag.nonDefault ".A.B"] } := by
  decide

/-- C9. The counter never decreases and the memo never loses a type: for a
type check of a non-nil type (which always returns), for an audit that
returns, and for every sequence of gate operations that returns, from every
state. -/
theorem counter_and_memo_monotone :
    (∀ (g : Runtime) (t : TypeId) (s : State), ∃ s1,
      checkType g g.budget (some t) s = .done s1 ∧
      s.errorCount ≤ s1.errorCount ∧ s.checked ⊆ s1.checked) ∧
    (∀ (g : Runtime) (value : Interface) (s s1 : State),
      checkDefault g value s = .done s1 →
      s.errorCount ≤ s1.errorCount ∧ s.checked ⊆ s1.checked) ∧
    (∀ (σ ρ : Type) (gob : Gob σ ρ) (g : Runtime) (ops : List Op) (s : State) (c : σ)
        (s1 : State) (c1 : σ),
      runOps gob g ops (s, c) = .done (s1, c1) →
      s.errorCount ≤ s1.errorCount ∧ s.checked ⊆ s1.checked) := by
  have hT : ∀ (g : Runtime) (t : TypeId) (s : State), ∃ s1,
      checkType g g.budget (some t) s = .done s1 ∧
      s.errorCount ≤ s1.errorCount ∧ s.checked ⊆ s1.checked := by
    intro g t s
    obtain ⟨s1, new, dn, h1, D⟩ := checkType_budget g t s
    refine ⟨s1, h1, ?_, ?_⟩
    · rw [D.count_eq]; omega
    · rw [D.checked_eq]; exact List.subset_append_right _ _
  have hD : ∀ (g : Runtime) (value : Interface) (s s1 : State),
      checkDefault g value s = .done s1 →
      s.errorCount ≤ s1.errorCount ∧ s.checked ⊆ s1.checked := by
    intro g value s s1 hr
    rw [checkDefault_errorCount g value s s1 hr, checkDefault_checked g value s s1 hr]
    exact ⟨by omega, fun _ h => h⟩
  refine ⟨hT, hD, ?_⟩
  intro σ ρ gob g ops s c s1 c1 h
  refine runOps_preserves gob g (fun s2 => s.errorCount ≤ s2.errorCount ∧ s.checked ⊆ s2.checked)
    ?_ ?_ ops s c s1 c1 ⟨le_refl _, fun _ h => h⟩ h
  · intro t s2 s3 hs hr
    obtain ⟨s4, h4, hle, hsub⟩ := hT g t s2
    rw [hr] at h4
    cases h4
    exact ⟨le_trans hs.1 hle, fun _ hm => hsub (hs.2 hm)⟩
  · intro v s2 s3 hs hr
    obtain ⟨hle, hsub⟩ := hD g v s2 s3 hr
    exact ⟨le_trans hs.1 hle, fun _ hm => hsub (hs.2 hm)⟩

/-- Witness of C9: an audit of `&S{A: 0, B: 1}` with the counter at 3, and a
decode into `&U{X: 1}` after the type `int` was checked. -/
theorem counter_and_memo_monotone_witness :
    (checkDefault sampleS (some ⟨2, ptrS⟩) { checked := [0], errorCount := 3, out := [] } =
      .done { checked := [0], errorCount := 4, out := [] } ∧
      (3 : Nat) ≤ 4 ∧ ([0] : List TypeId) ⊆ [0]) ∧
    (runOps idleGob sampleU [Op.Decode (some ⟨3, ptrU 1⟩)]
        ({ checked := [0], errorCount := 0, out := [] }, ()) =
      .done ({ checked := [1, 2, 3, 0], errorCount := 2,
               out := [Diag.lowerCase "m" "U"] }, ()) ∧
      (0 : Nat) ≤ 2 ∧ ([0] : List TypeId) ⊆ [1, 2, 3, 0]) :=
  ⟨⟨by decide,
      counter_and_memo_monotone.2.1 sampleS (some ⟨2, ptrS⟩)
        { checked := [0], errorCount := 3, out := [] }
        { checked := [0], errorCount := 4, out := [] } (by decide)⟩,
    ⟨by decide,
      counter_and_memo_monotone.2.2 Unit Unit idleGob sampleU [Op.Decode (some ⟨3, ptrU 1⟩)]
        { checked := [0], errorCount := 0, out := [] } ()
        { checked := [1, 2, 3, 0], errorCount := 2, out := [Diag.lowerCase "m" "U"] } ()
        (by decide)⟩⟩

/-- C10 does not hold of the code for `Decode`: the audit of line 52 panics at
line 149 on a destination with an unexported scalar field, so line 53 is
never reached and the codec is not called. Decoding into `&T{ID: 0, name: ""}`
and into `&T{ID: 0, name: "x"}` in a fresh process panics. `Encode` forwards
to the codec for every non-nil argument, and `Decode` does whenever the audit
returns. -/
theorem decode_panics_before_codec :
    Op.run idleGob sampleT (.Decode (some ⟨3, .VPtr "" (some (valTOf 0 ""))⟩))
      (State.init, ()) = .panic ∧
    Op.run idleGob sampleT (.Decode (some ⟨3, ptrT⟩)) (State.init, ()) = .panic ∧
    Op.run idleGob sampleT (.Encode (some ⟨3, ptrT⟩)) (State.init, ()) =
      .done ({ checked := [1, 0, 2, 3], errorCount := 1,
               out := [Diag.lowerCase "name" "T"] }, ()) ∧
    (∀ (σ ρ : Type) (gob : Gob σ ρ) (g : Runtime) (iv : Iface) (s : State) (c : σ),
      ∃ s1, checkValue g (some iv) s = .done s1 ∧
        Encode gob g (some iv) s c =
          .done { ret := (gob.Encode (some iv) c).1, diag := s1,
                  codec := (gob.Encode (some iv) c).2, dest := some iv } ∧
        Decode gob g (some iv) s c =
          (checkDefault g (some iv) s1).bind fun s2 =>
            .done { ret := (gob.Decode (some iv) c).1, diag := s2,
                    codec := (gob.Decode (some iv) c).2, dest := gob.Fill (some iv) c }) := by
  refine ⟨by decide, by decide, by decide, ?_⟩
  intro σ ρ gob g iv s c
  obtain ⟨s1, new, dn, h1, _⟩ := checkType_budget g iv.typ s
  have hv : checkValue g (some iv) s = .done s1 := h1
  exact ⟨s1, hv, by simp only [Encode, hv, Outcome.bind_done],
    by simp only [Decode, hv, Outcome.bind_done]⟩

/-! ## Order of the steps, dependence on the type, nil and unaudited kinds -/

theorem checkValue_some (g : Runtime) (iv : Iface) (s : State) :
    checkValue g (some iv) s = checkType g g.budget (some iv.typ) s := rfl

theorem checkValue_none (g : Runtime) (s : State) : checkValue g none s = .panic := rfl

theorem diagAfter_Decode {σ ρ : Type} (gob : Gob σ ρ) (g : Runtime) (v : Interface)
    (s : State) (c : σ) :
    diagAfter (Decode gob g v s c) = (checkValue g v s).bind fun s1 => checkDefault g v s1 := by
  simp only [diagAfter, Decode, Outcome.bind_assoc, Outcome.bind_done, Outcome.bind_pure]

/-- C11. The steps of `Decode` run in the order type check, audit, codec
read. For every argument, nil included, the diagnostic outcome of `Decode` is
that of `checkValue` followed by `checkDefault` on the argument as it is at
the call, so it is the same for any two codecs and codec states, whatever
they store in the destination. The audit sees the destination before the
fill: with a codec that stores `&S{A: 5, B: 0}` into the zero destination
`&S{A: 0, B: 0}`, `Decode` reports nothing and leaves the filled destination,
whose audit afterwards would report `.A`. The type check comes before the
audit: for `&U{X: 1}` in a fresh process the audit comes after the
invisible-field line of `m` and prints nothing, whereas audit followed by
type check would print the non-default line first. -/
theorem decode_checks_then_audits :
    (∀ (σ ρ : Type) (gob : Gob σ ρ) (g : Runtime) (v : Interface) (s : State) (c : σ),
      diagAfter (Decode gob g v s c) =
        (checkValue g v s).bind fun s1 => checkDefault g v s1) ∧
    (∀ (σ ρ σ1 ρ1 : Type) (gob : Gob σ ρ) (gob1 : Gob σ1 ρ1) (g : Runtime) (v : Interface)
        (s : State) (c : σ) (c1 : σ1),
      diagAfter (Decode gob g v s c) = diagAfter (Decode gob1 g v s c1)) ∧
    (diagAfter (Decode fillGob sampleS (some ⟨2, ptrSOf 0 0⟩) State.init
        (some ⟨2, ptrSOf 5 0⟩)) =
      .done { checked := [0, 1, 2], errorCount := 0, out := [] } ∧
     destAfter (Decode fillGob sampleS (some ⟨2, ptrSOf 0 0⟩) State.init
        (some ⟨2, ptrSOf 5 0⟩)) = .done (some ⟨2, ptrSOf 5 0⟩) ∧
     checkDefault sampleS (some ⟨2, ptrSOf 5 0⟩)
        { checked := [0, 1, 2], errorCount := 0, out := [] } =
      .done { checked := [0, 1, 2], errorCount := 1, out := [Diag.nonDefault ".A"] }) ∧
    (diagAfter (Decode idleGob sampleU (some ⟨3, ptrU 1⟩) State.init ()) =
      .done { checked := [1, 0, 2, 3], errorCount := 2, out := [Diag.lowerCase "m" "U"] } ∧
     ((checkDefault sampleU (some ⟨3, ptrU 1⟩) State.init).bind fun s1 =>
        checkValue sampleU (some ⟨3, ptrU 1⟩) s1) =
      .done { checked := [1, 0, 2, 3], errorCount := 2,
              out := [Diag.nonDefault ".X", Diag.lowerCase "m" "U"] }) := by
  refine ⟨fun σ ρ => diagAfter_Decode, ?_, ⟨by decide, rfl, by decide⟩,
    ⟨by decide, by decide⟩⟩
  intro σ ρ σ1 ρ1 gob gob1 g v s c c1
  rw [diagAfter_Decode, diagAfter_Decode]

/-- C12. The type check depends on the type of the value only: two non-nil
values of the same type give the same outcome of `checkValue` from every
state, output included; and once a value of a type has been checked,
checking or encoding any other value of that type returns with the state
unchanged. -/
theorem checkValue_depends_on_type_only :
    (∀ (g : Runtime) (t : TypeId) (v1 v2 : Value) (s : State),
      checkValue g (some ⟨t, v1⟩) s = checkValue g (some ⟨t, v2⟩) s) ∧
    (∀ (σ ρ : Type) (gob : Gob σ ρ) (g : Runtime) (t : TypeId) (v1 v2 : Value) (s : State)
        (c : σ),
      ∃ s1, checkValue g (some ⟨t, v1⟩) s = .done s1 ∧
        checkValue g (some ⟨t, v2⟩) s1 = .done s1 ∧
        diagAfter (Encode gob g (some ⟨t, v2⟩) s1 c) = .done s1) := by
  refine ⟨fun g t v1 v2 s => rfl, ?_⟩
  intro σ ρ gob g t v1 v2 s c
  obtain ⟨s1, new, dn, h1, D⟩ := checkType_budget g t s
  have hm : t ∈ s1.checked := D.roots_mem t (by simp)
  have h2 : checkValue g (some ⟨t, v2⟩) s1 = .done s1 :=
    checkType_of_mem g g.types.length t s1 hm
  exact ⟨s1, h1, h2, by simp only [diagAfter, Encode, h2, Outcome.bind_done]⟩

theorem checkDefault_nil_tolerant_aux (g : Runtime) (tn : String) (ro : RO) (d : Int)
    (path : String) (s : State) :
    checkDefaultinner g (.VPtr tn none) ro d path s = .done s := by
  rw [checkDefaultinner_eq]
  split <;> rfl

/-- C13. Nil tolerance of the auditor: `checkDefault` of the nil interface
and `checkDefaultinner` of a nil pointer, at any depth, with any path and any
read-only bits, return the state unchanged (memo, counter and output); the
audit of a non-nil pointer is the audit of its pointee at `depth + 1` with
the same path and the same read-only bits. -/
theorem checkDefault_nil_tolerant :
    (∀ (g : Runtime) (s : State), checkDefault g none s = .done s) ∧
    (∀ (g : Runtime) (tn : String) (ro : RO) (d : Int) (path : String) (s : State),
      checkDefaultinner g (.VPtr tn none) ro d path s = .done s) ∧
    (∀ (g : Runtime) (tn : String) (pointee : Value) (ro : RO) (d : Int) (path : String)
        (s : State),
      checkDefaultinner g (.VPtr tn (some pointee)) ro d path s =
        checkDefaultinner g pointee ro (d + 1) path s) := by
  refine ⟨fun g s => rfl, checkDefault_nil_tolerant_aux, ?_⟩
  · intro g tn pointee ro d path s
    by_cases hd : d > 3
    · have hd1 : d + 1 > 3 := by omega
      rw [checkDefaultinner_eq, checkDefaultinner_eq g pointee]
      simp [hd, hd1]
    · rw [checkDefaultinner_eq]
      simp [hd]

/-- C14. The auditor ignores the kinds its switch has no case for: for every
value of such a kind (slice, array, map, interface, chan, func, complex,
unsafe pointer), whatever it contains and whatever its read-only bits, at
every depth and with every path, `checkDefaultinner` returns the state
unchanged; so non-default data inside a slice, an array or a map is not
reported, whether the container is the audited root or a field of it,
exported or not. -/
theorem checkDefaultinner_ignores_other_kinds :
    (∀ (g : Runtime) (v : Value) (ro : RO) (d : Int) (path : String) (s : State),
      auditedKind v.Kind = false → checkDefaultinner g v ro d path s = .done s) ∧
    (∀ (g : Runtime) (k : OtherKind) (tn : String) (contents : List Value) (ro : RO) (d : Int)
        (path : String) (s : State),
      checkDefaultinner g (.VOther k tn contents) ro d path s = .done s) ∧
    (∀ (g : Runtime) (t : TypeId) (k : OtherKind) (tn : String) (contents : List Value)
        (s : State),
      checkDefault g (some ⟨t, .VOther k tn contents⟩) s = .done s) ∧
    (∀ (g : Runtime) (t : TypeId) (tn : String) (f : FieldDesc) (k : OtherKind) (tn1 : String)
        (contents : List Value) (s : State),
      checkDefault g (some ⟨t, .VStruct tn [(f, .VOther k tn1 contents)]⟩) s = .done s) := by
  have hother : ∀ (g : Runtime) (k : OtherKind) (tn : String) (contents : List Value)
      (ro : RO) (d : Int) (path : String) (s : State),
      checkDefaultinner g (.VOther k tn contents) ro d path s = .done s := by
    intro g k tn contents ro d path s
    rw [checkDefaultinner_eq]
    split <;> rfl
  refine ⟨?_, hother, fun g t k tn contents s => hother g k tn contents RO.clear 1 "" s, ?_⟩
  · intro g v ro d path s hk
    cases v with
    | VOther k tn contents => exact hother g k tn contents ro d path s
    | VStruct tn fields => simp [Value.Kind, auditedKind] at hk
    | VPtr tn elem => simp [Value.Kind, auditedKind] at hk
    | VBool tn b => simp [Value.Kind, auditedKind] at hk
    | VInt k tn i => cases k <;> simp [Value.Kind, auditedKind] at hk
    | VFloat k tn f => cases k <;> simp [Value.Kind, auditedKind] at hk
    | VString tn str => simp [Value.Kind, auditedKind] at hk
  · intro g t tn f k tn1 contents s
    simp only [checkDefault]
    rw [checkDefaultinner_eq]
    simp only [show ¬ ((1 : Int) > 3) by decide, if_false, structLoop]
    rw [hother g k tn1 contents]
    rfl

/-- Witness of C14: a slice of `int` holding 7 is not reported. -/
theorem checkDefaultinner_ignores_other_kinds_witness :
    auditedKind (Value.VOther .Slice "" [.VInt .Int "int" 7]).Kind = false ∧
    checkDefaultinner sampleS (.VOther .Slice "" [.VInt .Int "int" 7]) RO.clear 1 ""
      State.init = .done State.init :=
  ⟨by decide,
    checkDefaultinner_ignores_other_kinds.1 sampleS (.VOther .Slice "" [.VInt .Int "int" 7])
      RO.clear 1 "" State.init (by decide)⟩

/-- C15. `Register`, `RegisterName` and `EncodeValue` on the handle of a
value run the type check of `Encode`: for every value, nil included, every
state, every codec and every name, the diagnostic state the four leave (or
the panic, for nil) is the outcome of `checkValue` on the value. For a
non-nil value each then makes its one codec call on the codec state of the
call. -/
theorem gates_share_type_check :
    (∀ (σ ρ : Type) (gob : Gob σ ρ) (g : Runtime) (value : Interface) (name : String)
        (s : State) (c : σ),
      diagAfter (Encode gob g value s c) = checkValue g value s ∧
      diagAfter (EncodeValue gob g (ValueOf value) s c) = checkValue g value s ∧
      diagAfter (Register gob g value s c) = checkValue g value s ∧
      diagAfter (RegisterName gob g name value s c) = checkValue g value s) ∧
    (∀ (σ ρ : Type) (gob : Gob σ ρ) (g : Runtime) (iv : Iface) (name : String)
        (s : State) (c : σ),
      codecAfter (Encode gob g (some iv) s c) = .done (gob.Encode (some iv) c).2 ∧
      codecAfter (EncodeValue gob g (ValueOf (some iv)) s c) =
        .done (gob.EncodeValue (ValueOf (some iv)) c).2 ∧
      codecAfter (Register gob g (some iv) s c) = .done (gob.Register (some iv) c) ∧
      codecAfter (RegisterName gob g name (some iv) s c) =
        .done (gob.RegisterName name (some iv) c)) := by
  refine ⟨?_, ?_⟩
  · intro σ ρ gob g value name s c
    refine ⟨?_, ?_, ?_, ?_⟩
    · simp only [diagAfter, Encode, Outcome.bind_assoc, Outcome.bind_done, Outcome.bind_pure]
    · cases value with
      | none => rfl
      | some iv =>
        simp only [diagAfter, EncodeValue, ValueOf, RValue.Interface, Outcome.bind_assoc,
          Outcome.bind_done, Outcome.bind_pure]
    · simp only [diagAfter, Register, Outcome.bind_assoc, Outcome.bind_done, Outcome.bind_pure]
    · simp only [diagAfter, RegisterName, Outcome.bind_assoc, Outcome.bind_done,
        Outcome.bind_pure]
  · intro σ ρ gob g iv name s c
    obtain ⟨s1, new, dn, h1, _⟩ := checkType_budget g iv.typ s
    have hv : checkValue g (some iv) s = .done s1 := h1
    refine ⟨?_, ?_, ?_, ?_⟩
    · simp only [codecAfter, Encode, hv, Outcome.bind_done]
    · simp only [codecAfter, EncodeValue, ValueOf, RValue.Interface, hv, Outcome.bind_done]
    · simp only [codecAfter, Register, hv, Outcome.bind_done]
    · simp only [codecAfter, RegisterName, hv, Outcome.bind_done]

/-! ## Memo closure, reach of the audit through `Decode`, nil arguments -/

/-- C17. Memo closure. If the memo is closed under the child relation, then
`checkType` on a non-nil type returns, the memo is closed again, it contains
`t`, and a type is in it exactly if it was in the old memo or is reachable
from `t`. The empty memo of the initial state is closed. -/
theorem checkType_keeps_memo_closed :
    (∀ (g : Runtime) (t : TypeId) (s : State), Closed g s.checked →
      ∃ s1, checkType g g.budget (some t) s = .done s1 ∧ Closed g s1.checked ∧
        t ∈ s1.checked ∧ ∀ u, u ∈ s1.checked ↔ (u ∈ s.checked ∨ Reach g t u)) ∧
    (∀ g : Runtime, Closed g State.init.checked) := by
  refine ⟨?_, ?_⟩
  · intro g t s hc
    obtain ⟨s1, new, dn, h1, D⟩ := checkType_budget g t s
    have hcl : Closed g s1.checked := D.closed_after g hc
    have ht : t ∈ s1.checked := D.roots_mem t (by simp)
    refine ⟨s1, h1, hcl, ht, ?_⟩
    intro u
    constructor
    · intro hu
      rw [D.checked_eq] at hu
      rcases List.mem_append.1 hu with hu | hu
      · obtain ⟨r, hr, hru⟩ := D.reach u hu
        simp only [List.mem_singleton] at hr
        subst hr
        exact Or.inr hru
      · exact Or.inl hu
    · intro hu
      rcases hu with hu | hu
      · rw [D.checked_eq]
        exact List.mem_append_right _ hu
      · exact hcl.reach_mem g ht hu
  · intro g u hu
    simp [State.init] at hu

/-- Witness of C17: `T` checked from a memo that holds `int` only, which is
closed because `int` has no children. -/
theorem checkType_keeps_memo_closed_witness :
    Closed sampleT [0] ∧
    ∃ s1, checkType sampleT sampleT.budget (some 2)
        { checked := [0], errorCount := 0, out := [] } = .done s1 ∧
      Closed sampleT s1.checked ∧ 2 ∈ s1.checked ∧
      ∀ u, u ∈ s1.checked ↔ (u ∈ [0] ∨ Reach sampleT 2 u) :=
  ⟨by unfold Closed; decide,
    checkType_keeps_memo_closed.1 sampleT 2 { checked := [0], errorCount := 0, out := [] }
      (by unfold Closed; decide)⟩

/-- At depth 4 every field of a struct is skipped, so the loop leaves the
state as it is. -/
theorem structLoop_cutoff (g : Runtime) (ro : RO) (d : Int) (hd : d > 3) :
    ∀ (fields : List (FieldDesc × Value)) (path : String) (s : State),
      structLoop g ro (fun vv r nm s1 => checkDefaultinner g vv r d nm s1) fields path s =
        .done s := by
  intro fields
  induction fields with
  | nil => intro path s; rfl
  | cons p rest ih =>
    obtain ⟨f, vv⟩ := p
    intro path s
    simp only [structLoop]
    rw [checkDefaultinner_eq]
    simp only [hd, if_true, Outcome.bind_done]
    exact ih _ s

theorem checkDefaultinner_struct_depth3 (g : Runtime) (tn : String)
    (fields : List (FieldDesc × Value)) (ro : RO) (path : String) (s : State) :
    checkDefaultinner g (.VStruct tn fields) ro 3 path s = .done s := by
  rw [checkDefaultinner_eq]
  simp only [show ¬ ((3 : Int) > 3) by decide, if_false]
  exact structLoop_cutoff g ro (3 + 1) (by decide) fields path s

theorem checkDefaultinner_ptr_depth3 (g : Runtime) (tn : String) (elem : Option Value)
    (ro : RO) (path : String) (s : State) :
    checkDefaultinner g (.VPtr tn elem) ro 3 path s = .done s := by
  cases elem with
  | none => exact checkDefault_nil_tolerant_aux g tn ro 3 path s
  | some e =>
    rw [checkDefaultinner_eq]
    simp only [show ¬ ((3 : Int) > 3) by decide, if_false]
    rw [checkDefaultinner_eq]
    simp

theorem nonDefaultLeaves_one (vv : Value) :
    nonDefaultLeaves 1 vv = if vv.nonDefault then 1 else 0 := by
  cases vv with
  | VStruct tn fs => simp [nonDefaultLeaves, Value.nonDefault]
  | VPtr tn e => cases e <;> simp [nonDefaultLeaves, Value.nonDefault]
  | VOther k tn cs => simp [nonDefaultLeaves, Value.nonDefault]
  | _ => simp only [nonDefaultLeaves]

theorem structLoop_sum_eq (fields : List (FieldDesc × Value)) :
    (fields.map fun p => nonDefaultLeaves 1 p.2).sum =
      (fields.filter fun p => p.2.nonDefault).length := by
  induction fields with
  | nil => rfl
  | cons p rest ih =>
    obtain ⟨n, vv⟩ := p
    simp only [List.map_cons, List.sum_cons, List.filter_cons]
    rw [ih, nonDefaultLeaves_one]
    by_cases hv : vv.nonDefault = true
    · simp [hv]; omega
    · simp [hv]

/-- The audit of the fields of a struct at depth 3, when it returns, counts
the fields that are non-default scalars. -/
theorem structLoop_depth3 (g : Runtime) (ro : RO) :
    ∀ (fields : List (FieldDesc × Value)) (path : String) (s s1 : State),
      structLoop g ro (fun vv r nm s2 => checkDefaultinner g vv r 3 nm s2) fields path s =
        .done s1 →
      s1.errorCount = s.errorCount + (fields.filter fun p => p.2.nonDefault).length := by
  intro fields path s s1 hr
  have h : ∀ (vv : Value) (r : RO) (nm : String) (s2 s3 : State),
      checkDefaultinner g vv r 3 nm s2 = .done s3 →
      s3.errorCount = s2.errorCount + nonDefaultLeaves 1 vv :=
    fun vv r nm s2 s3 h3 => checkDefaultinnerAux_errorCount g 1 vv r 3 nm s2 s3 rfl h3
  rw [structLoop_errorCount g ro (fun vv r nm s2 => checkDefaultinner g vv r 3 nm s2)
    (nonDefaultLeaves 1) h fields path s s1 hr]
  rw [structLoop_sum_eq]

/-- At depth 3 the audit returns unless the value is a scalar with a
read-only bit set. -/
theorem checkDefaultinner_depth3_returns (g : Runtime) (vv : Value) (ro : RO) (path : String)
    (s : State) (h : vv.isScalar = true → ro.isSet = false) :
    ∃ s1, checkDefaultinner g vv ro 3 path s = .done s1 := by
  cases vv with
  | VStruct tn fields => exact ⟨s, checkDefaultinner_struct_depth3 g tn fields ro path s⟩
  | VPtr tn elem => exact ⟨s, checkDefaultinner_ptr_depth3 g tn elem ro path s⟩
  | VOther k tn cs =>
    refine ⟨s, ?_⟩
    rw [checkDefaultinner_eq]
    split <;> rfl
  | _ =>
    have hro := h rfl
    rw [checkDefaultinner_eq]
    simp only [show ¬ ((3 : Int) > 3) by decide, if_false, hro, Bool.false_eq_true]
    split
    · exact ⟨_, rfl⟩
    · exact ⟨_, rfl⟩

theorem structLoop_depth3_returns (g : Runtime) :
    ∀ (fields : List (FieldDesc × Value)) (path : String) (s : State),
      (∀ p ∈ fields, p.2.isScalar = true → exportedName g p.1.Name = true) →
      ∃ s1, structLoop g RO.clear (fun vv r nm s2 => checkDefaultinner g vv r 3 nm s2)
        fields path s = .done s1 := by
  intro fields
  induction fields with
  | nil => intro path s _; exact ⟨s, rfl⟩
  | cons p rest ih =>
    obtain ⟨f, vv⟩ := p
    intro path s h
    simp only [structLoop]
    obtain ⟨s2, h2⟩ := checkDefaultinner_depth3_returns g vv (RO.clear.ofField g f)
      (if f.Name != "" then path ++ "." ++ f.Name else path) s
      (fun hsc => RO.ofField_exported g f (h (f, vv) (by simp) hsc))
    rw [h2, Outcome.bind_done]
    exact ih _ s2 (fun p hp hsc => h p (List.mem_cons_of_mem _ hp) hsc)

theorem checkDefaultinner_depth3_cases (g : Runtime) (vv : Value) (ro : RO) (path : String)
    (s : State) :
    (∃ s1, checkDefaultinner g vv ro 3 path s = .done s1) ∨
      checkDefaultinner g vv ro 3 path s = .panic := by
  by_cases h : vv.isScalar = true → ro.isSet = false
  · exact Or.inl (checkDefaultinner_depth3_returns g vv ro path s h)
  · right
    simp only [Classical.not_imp, Bool.not_eq_false] at h
    obtain ⟨hsc, hro⟩ := h
    rw [checkDefaultinner_eq]
    cases vv with
    | VStruct tn fields => simp [Value.isScalar] at hsc
    | VPtr tn elem => simp [Value.isScalar] at hsc
    | VOther k tn cs => simp [Value.isScalar] at hsc
    | _ => simp only [show ¬ ((3 : Int) > 3) by decide, if_false, hro, if_true]

theorem RO.ofField_unexported (g : Runtime) (f : FieldDesc) (h : exportedName g f.Name = false) :
    (RO.clear.ofField g f).isSet = true := by
  unfold RO.ofField
  simp only [h, Bool.false_eq_true, if_false]
  split <;> simp [RO.isSet, RO.clear]

/-- The audit of the fields of a struct at depth 3 panics when one of them is
an unexported scalar. -/
theorem structLoop_depth3_panics (g : Runtime) :
    ∀ (fields : List (FieldDesc × Value)) (path : String) (s : State),
      (∃ p ∈ fields, p.2.isScalar = true ∧ exportedName g p.1.Name = false) →
      structLoop g RO.clear (fun vv r nm s2 => checkDefaultinner g vv r 3 nm s2)
        fields path s = .panic := by
  intro fields
  induction fields with
  | nil => intro path s h; obtain ⟨p, hp, _⟩ := h; cases hp
  | cons q rest ih =>
    obtain ⟨f, vv⟩ := q
    intro path s h
    simp only [structLoop]
    rcases checkDefaultinner_depth3_cases g vv (RO.clear.ofField g f)
      (if f.Name != "" then path ++ "." ++ f.Name else path) s with ⟨s2, h2⟩ | h2
    · rw [h2, Outcome.bind_done]
      apply ih
      obtain ⟨p, hp, hsc, hex⟩ := h
      rcases List.mem_cons.1 hp with rfl | hp
      · exfalso
        have hro := RO.ofField_unexported g f hex
        rw [checkDefaultinner_eq] at h2
        cases vv with
        | VStruct tn fields => simp [Value.isScalar] at hsc
        | VPtr tn elem => simp [Value.isScalar] at hsc
        | VOther k tn cs => simp [Value.isScalar] at hsc
        | _ =>
          simp only [show ¬ ((3 : Int) > 3) by decide, if_false, hro, if_true] at h2
          cases h2
      · exact ⟨p, hp, hsc, hex⟩
    · rw [h2]
      rfl

theorem checkDefault_ptr_struct (g : Runtime) (t : TypeId) (tn tn1 : String)
    (fields : List (FieldDesc × Value)) (s : State) :
    checkDefault g (some ⟨t, .VPtr tn (some (.VStruct tn1 fields))⟩) s =
      structLoop g RO.clear (fun vv r nm s2 => checkDefaultinner g vv r 3 nm s2) fields "" s := by
  simp only [checkDefault]
  rw [checkDefaultinner_eq]
  simp only [show ¬ ((1 : Int) > 3) by decide, if_false]
  rw [checkDefaultinner_eq]
  simp only [show ¬ ((1 : Int) + 1 > 3) by decide, if_false]
  rfl

/-- C18. Reach of the audit through `Decode`. `Decode` audits its argument,
the pointer to the destination, as the root at depth 1, so the destination
struct is at depth 2 and its fields at depth 3. A field that is itself a
struct or a pointer is audited at depth 3 with no effect, whatever it
contains and whatever its read-only bits, because what it contains is at
depth 4. The direct fields are audited: the audit returns when the direct
fields of scalar kind are all exported, and then the counter has grown by the
number of direct fields that are non-default scalars; it panics (line 149)
when a direct field of scalar kind is unexported. For
`&Outer{N: n, In: Inner{X: x}, P: &Inner{X: y}}` the outcome of `Decode` on
the diagnostic state is the same for all `x` and `y`, and with `n = 5` in a
fresh process only `.N` is reported. -/
theorem decode_audits_direct_fields_only :
    (∀ (g : Runtime) (tn : String) (fields : List (FieldDesc × Value)) (ro : RO)
        (path : String) (s : State),
      checkDefaultinner g (.VStruct tn fields) ro 3 path s = .done s) ∧
    (∀ (g : Runtime) (tn : String) (elem : Option Value) (ro : RO) (path : String)
        (s : State),
      checkDefaultinner g (.VPtr tn elem) ro 3 path s = .done s) ∧
    (∀ (g : Runtime) (t : TypeId) (tn tn1 : String) (fields : List (FieldDesc × Value))
        (s s1 : State),
      checkDefault g (some ⟨t, .VPtr tn (some (.VStruct tn1 fields))⟩) s = .done s1 →
      s1.errorCount = s.errorCount + (fields.filter fun p => p.2.nonDefault).length) ∧
    (∀ (g : Runtime) (t : TypeId) (tn tn1 : String) (fields : List (FieldDesc × Value))
        (s : State),
      (∀ p ∈ fields, p.2.isScalar = true → exportedName g p.1.Name = true) →
      ∃ s1, checkDefault g (some ⟨t, .VPtr tn (some (.VStruct tn1 fields))⟩) s = .done s1) ∧
    (∀ (g : Runtime) (t : TypeId) (tn tn1 : String) (fields : List (FieldDesc × Value))
        (s : State),
      (∃ p ∈ fields, p.2.isScalar = true ∧ exportedName g p.1.Name = false) →
      checkDefault g (some ⟨t, .VPtr tn (some (.VStruct tn1 fields))⟩) s = .panic) ∧
    (∀ (σ ρ : Type) (gob : Gob σ ρ) (g : Runtime) (t : TypeId) (n x y x1 y1 : Int)
        (s : State) (c : σ),
      diagAfter (Decode gob g (some ⟨t, ptrOuter n x y⟩) s c) =
        diagAfter (Decode gob g (some ⟨t, ptrOuter n x1 y1⟩) s c)) ∧
    diagAfter (Decode idleGob sampleOuter (some ⟨4, ptrOuter 5 7 9⟩) State.init ()) =
      .done { checked := [2, 1, 0, 3, 4], errorCount := 1, out := [Diag.nonDefault ".N"] } := by
  refine ⟨checkDefaultinner_struct_depth3, checkDefaultinner_ptr_depth3, ?_, ?_, ?_, ?_,
    by decide⟩
  · intro g t tn tn1 fields s s1 hr
    rw [checkDefault_ptr_struct] at hr
    exact structLoop_depth3 g RO.clear fields "" s s1 hr
  · intro g t tn tn1 fields s h
    rw [checkDefault_ptr_struct]
    exact structLoop_depth3_returns g fields "" s h
  · intro g t tn tn1 fields s h
    rw [checkDefault_ptr_struct]
    exact structLoop_depth3_panics g fields "" s h
  · intro σ ρ gob g t n x y x1 y1 s c
    have haudit : ∀ (a b : Int) (s1 : State),
        checkDefault g (some ⟨t, ptrOuter n a b⟩) s1 =
          (checkDefaultinner g (.VInt .Int "int" n) (RO.clear.ofField g (fld "N")) 3
            (if (fld "N").Name != "" then "" ++ "." ++ (fld "N").Name else "") s1).bind
            fun s2 => .done s2 := by
      intro a b s1
      unfold ptrOuter outerFields
      rw [checkDefault_ptr_struct]
      simp only [structLoop, checkDefaultinner_struct_depth3, checkDefaultinner_ptr_depth3,
        Outcome.bind_done]
    simp only [diagAfter_Decode, haudit]
    rfl

/-- Witness of C18: the destination `&Outer{N: 5, In: Inner{X: 7}, P: &Inner{X: 9}}`,
whose three direct fields are exported, audited in a fresh process, and the
destination `&T{ID: 0, name: "x"}`, whose direct field `name` is an
unexported scalar. -/
theorem decode_audits_direct_fields_only_witness :
    (checkDefault sampleOuter (some ⟨4, ptrOuter 5 7 9⟩) State.init =
      .done { checked := [], errorCount := 1, out := [Diag.nonDefault ".N"] } ∧
     (1 : Nat) = 0 + ((outerFields 5 7 9).filter fun p => p.2.nonDefault).length) ∧
    ((∀ p ∈ outerFields 5 7 9,
        p.2.isScalar = true → exportedName sampleOuter p.1.Name = true) ∧
     ∃ s1, checkDefault sampleOuter (some ⟨4, ptrOuter 5 7 9⟩) State.init = .done s1) ∧
    checkDefault sampleT (some ⟨3, ptrT⟩) State.init = .panic :=
  ⟨⟨by decide,
      decode_audits_direct_fields_only.2.2.1 sampleOuter 4 "" "Outer" (outerFields 5 7 9)
        State.init { checked := [], errorCount := 1, out := [Diag.nonDefault ".N"] }
        (by decide)⟩,
    ⟨by decide,
      decode_audits_direct_fields_only.2.2.2.1 sampleOuter 4 "" "Outer" (outerFields 5 7 9)
        State.init (by decide)⟩,
    decode_audits_direct_fields_only.2.2.2.2.1 sampleT 3 "" "T"
      [(fld "ID", .VInt .Int "int" 0), (fld "name", .VString "string" "x")] State.init
      ⟨(fld "name", .VString "string" "x"), by simp, rfl, by decide⟩⟩

/-- C19. The type check is total exactly on the non-nil type descriptors. On
a non-nil type `checkType` returns, from every state. On the nil type it
panics at its first step, for every budget and state, so `checkValue` of the
nil interface panics, and with it `Encode`, `Decode`, `Register` and
`RegisterName` of nil and `EncodeValue` of the zero handle, for every codec:
the outcome is the panic of the type check, before the memo is read and
before the codec or the auditor is called. -/
theorem checkType_total_on_non_nil :
    (∀ (g : Runtime) (t : TypeId) (s : State),
      ∃ s1, checkType g g.budget (some t) s = .done s1) ∧
    (∀ (g : Runtime) (fuel : Nat) (s : State), checkType g fuel none s = .panic) ∧
    (∀ (g : Runtime) (s : State), checkValue g none s = .panic) ∧
    (∀ (σ ρ : Type) (gob : Gob σ ρ) (g : Runtime) (name : String) (s : State) (c : σ),
      diagAfter (Encode gob g none s c) = .panic ∧
      codecAfter (Encode gob g none s c) = .panic ∧
      diagAfter (Decode gob g none s c) = .panic ∧
      codecAfter (Decode gob g none s c) = .panic ∧
      diagAfter (Register gob g none s c) = .panic ∧
      codecAfter (Register gob g none s c) = .panic ∧
      diagAfter (RegisterName gob g name none s c) = .panic ∧
      codecAfter (RegisterName gob g name none s c) = .panic ∧
      diagAfter (EncodeValue gob g RValue.invalid s c) = .panic ∧
      codecAfter (EncodeValue gob g RValue.invalid s c) = .panic) := by
  refine ⟨?_, ?_, fun g s => rfl, ?_⟩
  · intro g t s
    obtain ⟨s1, new, dn, h1, _⟩ := checkType_budget g t s
    exact ⟨s1, h1⟩
  · intro g fuel s
    cases fuel <;> rfl
  · intro σ ρ gob g name s c
    exact ⟨rfl, rfl, rfl, rfl, rfl, rfl, rfl, rfl, rfl, rfl⟩

/-! ## The lock discipline -/

theorem monitor_append (m : Mu) (a b : List Ev) :
    monitor m (a ++ b) = (monitor m a).bind fun m1 => monitor m1 b := by
  induction a generalizing m with
  | nil => rfl
  | cons e rest ih =>
    simp only [List.cons_append, monitor]
    cases m.step e with
    | none => rfl
    | some m1 => exact ih m1

theorem Disciplined.done {α : Type} (a : α) : Disciplined (Traced.done a) := rfl

theorem Disciplined.after {α : Type} {evs : List Ev} {x : Traced α}
    (h : monitor .free evs = some .free) (hx : Disciplined x) :
    Disciplined (Traced.after evs x) := by
  unfold Disciplined Traced.after
  rw [monitor_append, h]
  exact hx

theorem Disciplined.bind {α β : Type} {x : Traced α} {f : α → Traced β}
    (hx : Disciplined x) (hf : ∀ a, Disciplined (f a)) : Disciplined (x.bind f) := by
  unfold Disciplined Traced.bind
  cases h2 : x.2 with
  | done a =>
    simp only
    rw [monitor_append, hx]
    exact hf a
  | panic => exact hx
  | outOfFuel => exact hx

theorem Traced.after_snd {α : Type} (evs : List Ev) (x : Traced α) :
    (Traced.after evs x).2 = x.2 := rfl

theorem Traced.bind_snd {α β : Type} (x : Traced α) (f : α → Traced β) :
    (x.bind f).2 = x.2.bind fun a => (f a).2 := by
  unfold Traced.bind
  cases x.2 <;> rfl

theorem flagFieldEv_call (g : Runtime) (f : StructField) :
    monitor .free (flagFieldEv g f ++ [.call]) = some .free := by
  unfold flagFieldEv
  split <;> rfl

theorem fieldLoopEv_snd (g : Runtime) (t : TypeId) (recEv : TypeId → State → Traced State)
    (rec : TypeId → State → Outcome State) (h : ∀ u s, (recEv u s).2 = rec u s) :
    ∀ (fs : List StructField) (s : State),
      (fieldLoopEv g t recEv fs s).2 = fieldLoop g t rec fs s := by
  intro fs
  induction fs with
  | nil => intro s; rfl
  | cons f rest ih =>
    intro s
    simp only [fieldLoopEv, fieldLoop, Traced.bind_snd, Traced.after_snd, h]
    congr 1
    funext s1
    exact ih s1

theorem fieldLoopEv_disciplined (g : Runtime) (t : TypeId)
    (recEv : TypeId → State → Traced State) (h : ∀ u s, Disciplined (recEv u s)) :
    ∀ (fs : List StructField) (s : State), Disciplined (fieldLoopEv g t recEv fs s) := by
  intro fs
  induction fs with
  | nil => intro s; exact Disciplined.done s
  | cons f rest ih =>
    intro s
    simp only [fieldLoopEv]
    exact Disciplined.bind (Disciplined.after (flagFieldEv_call g f) (h _ _)) ih

/-- Without its events `checkTypeEv` is `checkType`. -/
theorem checkTypeEv_snd (g : Runtime) :
    ∀ (fuel : Nat) (t : Option TypeId) (s : State),
      (checkTypeEv g fuel t s).2 = checkType g fuel t s := by
  intro fuel
  induction fuel with
  | zero => intro t s; cases t <;> rfl
  | succ fuel ih =>
    intro t s
    cases t with
    | none => rfl
    | some t =>
      simp only [checkTypeEv, checkType]
      by_cases ht : t ∈ s.checked
      · simp [ht]
      · simp only [ht, if_false, Traced.after_snd]
        cases hk : (g.typ t).Kind <;>
          simp only [Traced.after_snd, Traced.bind_snd, ih, Traced.done,
            fieldLoopEv_snd g t _ _ (fun u s2 => ih (some u) s2)]

/-- The events of `checkType` keep the discipline, for every budget, type and
state. -/
theorem checkTypeEv_disciplined (g : Runtime) :
    ∀ (fuel : Nat) (t : Option TypeId) (s : State), Disciplined (checkTypeEv g fuel t s) := by
  intro fuel
  induction fuel with
  | zero => intro t s; cases t <;> rfl
  | succ fuel ih =>
    intro t s
    cases t with
    | none => rfl
    | some t =>
      simp only [checkTypeEv]
      by_cases ht : t ∈ s.checked
      · simp only [ht, if_true]
        unfold Disciplined
        simp [monitor, Mu.step]
      · simp only [ht, if_false]
        have hpre : monitor .free [.lock, .memoTest t, .memoInsert t, .unlock] = some .free := by
          simp [monitor, Mu.step]
        have hcall : monitor .free [Ev.call] = some .free := rfl
        apply Disciplined.after hpre
        cases hk : (g.typ t).Kind with
        | Struct => exact fieldLoopEv_disciplined g t _ (fun u s2 => ih (some u) s2) _ _
        | Slice => exact Disciplined.after hcall (ih _ _)
        | Array => exact Disciplined.after hcall (ih _ _)
        | Ptr => exact Disciplined.after hcall (ih _ _)
        | Map =>
          exact Disciplined.bind (Disciplined.after hcall (ih _ _))
            (fun s2 => Disciplined.after hcall (ih _ _))
        | _ => exact Disciplined.done _

theorem structLoopEv_snd (g : Runtime) (ro : RO)
    (recEv : Value → RO → String → State → Traced State)
    (rec : Value → RO → String → State → Outcome State)
    (h : ∀ vv r nm s, (recEv vv r nm s).2 = rec vv r nm s) :
    ∀ (fs : List (FieldDesc × Value)) (nm : String) (s : State),
      (structLoopEv g ro recEv fs nm s).2 = structLoop g ro rec fs nm s := by
  intro fs
  induction fs with
  | nil => intro nm s; rfl
  | cons p rest ih =>
    obtain ⟨f, vv⟩ := p
    intro nm s
    simp only [structLoopEv, structLoop, Traced.bind_snd, Traced.after_snd, h]
    congr 1
    funext s1
    exact ih _ s1

theorem structLoopEv_disciplined (g : Runtime) (ro : RO)
    (recEv : Value → RO → String → State → Traced State)
    (h : ∀ vv r nm s, Disciplined (recEv vv r nm s)) :
    ∀ (fs : List (FieldDesc × Value)) (nm : String) (s : State),
      Disciplined (structLoopEv g ro recEv fs nm s) := by
  intro fs
  induction fs with
  | nil => intro nm s; exact Disciplined.done s
  | cons p rest ih =>
    obtain ⟨f, vv⟩ := p
    intro nm s
    simp only [structLoopEv]
    exact Disciplined.bind (Disciplined.after rfl (h _ _ _ _)) (ih _)

theorem checkDefaultinnerAuxEv_snd (g : Runtime) :
    ∀ (levels : Nat) (v : Value) (ro : RO) (d : Int) (nm : String) (s : State),
      (checkDefaultinnerAuxEv g levels v ro d nm s).2 =
        checkDefaultinnerAux g levels v ro d nm s := by
  intro levels
  induction levels with
  | zero => intro v ro d nm s; rfl
  | succ levels ih =>
    intro v ro d nm s
    by_cases hd : d > 3
    · simp [checkDefaultinnerAuxEv, checkDefaultinnerAux, hd, Traced.done]
    · cases v with
      | VStruct tn fields =>
        simp only [checkDefaultinnerAuxEv, checkDefaultinnerAux, hd, if_false]
        exact structLoopEv_snd g ro _ _ (fun vv r nm1 s1 => ih vv r _ nm1 s1) fields nm s
      | VPtr tn elem =>
        cases elem with
        | none => simp [checkDefaultinnerAuxEv, checkDefaultinnerAux, hd, Traced.done]
        | some e =>
          simp only [checkDefaultinnerAuxEv, checkDefaultinnerAux, hd, if_false,
            Traced.after_snd]
          exact ih e ro _ nm s
      | VOther k tn cs => simp [checkDefaultinnerAuxEv, checkDefaultinnerAux, hd, Traced.done]
      | _ =>
        simp only [checkDefaultinnerAuxEv, checkDefaultinnerAux, hd, if_false, Traced.done]
        split
        · rfl
        · split <;> rfl

theorem checkDefaultinnerAuxEv_disciplined (g : Runtime) :
    ∀ (levels : Nat) (v : Value) (ro : RO) (d : Int) (nm : String) (s : State),
      Disciplined (checkDefaultinnerAuxEv g levels v ro d nm s) := by
  intro levels
  induction levels with
  | zero => intro v ro d nm s; rfl
  | succ levels ih =>
    intro v ro d nm s
    by_cases hd : d > 3
    · simp only [checkDefaultinnerAuxEv, hd, if_true]
      exact Disciplined.done s
    · cases v with
      | VStruct tn fields =>
        simp only [checkDefaultinnerAuxEv, hd, if_false]
        exact structLoopEv_disciplined g ro _ (fun vv r nm1 s1 => ih vv r _ nm1 s1) fields nm s
      | VPtr tn elem =>
        cases elem with
        | none =>
          simp only [checkDefaultinnerAuxEv, hd, if_false]
          exact Disciplined.done s
        | some e =>
          simp only [checkDefaultinnerAuxEv, hd, if_false]
          exact Disciplined.after rfl (ih e ro _ nm s)
      | VOther k tn cs =>
        simp only [checkDefaultinnerAuxEv, hd, if_false]
        exact Disciplined.done s
      | _ =>
        simp only [checkDefaultinnerAuxEv, hd, if_false]
        split
        · rfl
        · split
          · rfl
          · exact Disciplined.done s

theorem enter_memo (t : TypeId) (memo : List TypeId) :
    ∀ u, u ∈ memo → u ∈ (enter t memo).2 := by
  intro u hu
  unfold enter
  split
  · exact hu
  · exact List.mem_cons_of_mem _ hu

/-- A section that went on to the dispatch was for a type that was not in the
memo, and no two such sections were for the same type. -/
theorem dispatched_nodup :
    ∀ (sched : List (Nat × TypeId)) (memo : List TypeId),
      ((dispatched sched memo).map Prod.snd).Nodup ∧
      ∀ p ∈ dispatched sched memo, p.2 ∉ memo := by
  intro sched
  induction sched with
  | nil => intro memo; simp [dispatched]
  | cons p rest ih =>
    obtain ⟨who, t⟩ := p
    intro memo
    obtain ⟨hnd, hfresh⟩ := ih (enter t memo).2
    by_cases ht : t ∈ memo
    · have he : enter t memo = (false, memo) := by simp [enter, ht]
      simp only [dispatched, he, Bool.false_eq_true, if_false]
      rw [he] at hnd hfresh
      exact ⟨hnd, hfresh⟩
    · have he : enter t memo = (true, t :: memo) := by simp [enter, ht]
      simp only [dispatched, he, if_true]
      rw [he] at hnd hfresh
      refine ⟨?_, ?_⟩
      · simp only [List.map_cons, List.nodup_cons]
        refine ⟨?_, hnd⟩
        intro hm
        obtain ⟨q, hq, hqt⟩ := List.mem_map.1 hm
        exact hfresh q hq (by rw [hqt]; simp)
      · intro q hq
        rcases List.mem_cons.1 hq with rfl | hq
        · exact ht
        · exact fun hm => hfresh q hq (List.mem_cons_of_mem _ hm)

theorem filter_snd_length_le_one {l : List (Nat × TypeId)} (h : (l.map Prod.snd).Nodup)
    (t : TypeId) : (l.filter fun p => p.2 == t).length ≤ 1 := by
  induction l with
  | nil => simp
  | cons p rest ih =>
    simp only [List.map_cons, List.nodup_cons] at h
    by_cases hp : p.2 = t
    · have hnone : rest.filter (fun q => q.2 == t) = [] := by
        rw [List.filter_eq_nil_iff]
        intro q hq hqt
        simp only [beq_iff_eq] at hqt
        exact h.1 (List.mem_map.2 ⟨q, hq, by rw [hqt, hp]⟩)
      simp [List.filter_cons, hp, hnone]
    · simp only [List.filter_cons, beq_iff_eq, hp, if_false]
      exact ih h.2

/-- C16. Lock discipline. `checkTypeEv` and `checkDefaultinnerEv` are
`checkType` and `checkDefaultinner` with their lock operations, their
accesses to `checked` and `errorCount` and their recursive calls recorded.
For every budget, type, value and state the recorded events pass the monitor
from a free mutex and leave it free: the memo is tested and written, and the
counter read and incremented, only while the lock is held, the insertion of a
type follows its test in the same critical section, the lock is never taken
while it is held, and it is free at every recursive call. The critical
section of lines 72-81 is `enter`; when several callers execute it, in
whatever order the mutex lets them in and from whatever memo, at most one of
them goes on to the kind dispatch of a given type, and none for a type that
was in the memo. -/
theorem lock_discipline :
    (∀ (g : Runtime) (fuel : Nat) (t : Option TypeId) (s : State),
      (checkTypeEv g fuel t s).2 = checkType g fuel t s ∧
      monitor .free (checkTypeEv g fuel t s).1 = some .free) ∧
    (∀ (g : Runtime) (v : Value) (ro : RO) (d : Int) (name : String) (s : State),
      (checkDefaultinnerEv g v ro d name s).2 = checkDefaultinner g v ro d name s ∧
      monitor .free (checkDefaultinnerEv g v ro d name s).1 = some .free) ∧
    (∀ (g : Runtime) (fuel : Nat) (t : TypeId) (s : State),
      checkType g (fuel + 1) (some t) s =
        if (enter t s.checked).1 then
          runSteps (fun u s2 => checkType g fuel (some u) s2) (steps g t)
            { s with checked := (enter t s.checked).2 }
        else .done s) ∧
    (∀ (sched : List (Nat × TypeId)) (memo : List TypeId) (t : TypeId),
      ((dispatched sched memo).filter fun p => p.2 == t).length ≤ 1 ∧
      ((dispatched sched memo).map Prod.snd).Nodup ∧
      (dispatched sched memo).all (fun p => !(memo.contains p.2)) = true) ∧
    (dispatched [(1, 7), (2, 7)] [] = [(1, 7)] ∧ dispatched [(2, 7), (1, 7)] [] = [(2, 7)] ∧
      dispatched [(1, 7), (2, 7)] [7] = []) := by
  refine ⟨?_, ?_, ?_, ?_, by decide⟩
  · intro g fuel t s
    exact ⟨checkTypeEv_snd g fuel t s, checkTypeEv_disciplined g fuel t s⟩
  · intro g v ro d name s
    exact ⟨checkDefaultinnerAuxEv_snd g _ v ro d name s,
      checkDefaultinnerAuxEv_disciplined g _ v ro d name s⟩
  · intro g fuel t s
    rw [checkType_succ]
    by_cases ht : t ∈ s.checked <;> simp [enter, ht]
  · intro sched memo t
    obtain ⟨hnd, hfresh⟩ := dispatched_nodup sched memo
    refine ⟨filter_snd_length_le_one hnd t, hnd, ?_⟩
    rw [List.all_eq_true]
    intro p hp
    simpa using hfresh p hp

end Labgob
